import Mathlib

/-!
Verification of the caloreat nutrition reconciliation & aggregation pipeline.

The definitions below are a shallow embedding of the JavaScript source:
* `src/frontend/src/DailyLogPage.jsx` — `normalize`, `analyzeItemsBackend`
  (the reconciliation matcher), `pollForSummary` (the status poller);
* `src/frontend/src/App.js` — `extractMealMacros`, `computeBMR`,
  `activityFactor`, `computeGoals`, the today-totals aggregation and
  `computeStreaksFromLogs`;
* `src/firebaseHelpers.js` — `getDailyLogs` (ordering contract) and
  `generateDailySummary` (the second poller).

Modelling conventions:
* JS strings are `List Char`; character classes are expressed through ASCII
  code points (`Char.toNat`) to keep arithmetic reasoning elementary.
* JS numbers are `ℚ` together with an explicit `nan` marker (`JSNum`);
  `null`/`undefined` are both modelled as `Option.none` (the source only ever
  distinguishes them through `??`/`||`, which treat them alike).
* `Math.round` is `⌊q + 1/2⌋` (JS rounds half-up).
-/

namespace Caloreat

/-! ### JS string primitives (DailyLogPage.jsx line 577-578 and friends) -/

/-- The JS `\s` / `trim` whitespace class, restricted to the ASCII part
(space, tab, line feed, vertical tab, form feed, carriage return). -/
def jsIsWs (c : Char) : Bool :=
  c == ' ' || c == '\t' || c == '\n' || c == '\x0b' || c == '\x0c' || c == '\r'

/-- `String.prototype.trim`: drop whitespace from both ends. -/
def jsTrim (l : List Char) : List Char :=
  (l.dropWhile jsIsWs).rdropWhile jsIsWs

/-- ASCII model of `String.prototype.toLowerCase` on one character. -/
def jsToLowerChar (c : Char) : Char :=
  if 65 ≤ c.toNat ∧ c.toNat ≤ 90 then Char.ofNat (c.toNat + 32) else c

/-- `String.prototype.toLowerCase`. -/
def jsToLower (l : List Char) : List Char := l.map jsToLowerChar

/-- Membership in the character class `[a-z0-9 ]` kept by
`.replace(/[^a-z0-9 ]/g, "")`. -/
def allowedChar (c : Char) : Bool :=
  (97 ≤ c.toNat && c.toNat ≤ 122) || (48 ≤ c.toNat && c.toNat ≤ 57) || c.toNat = 32

/-- `.replace(/[^a-z0-9 ]/g, "")`. -/
def stripDisallowed (l : List Char) : List Char := l.filter allowedChar

/-- `.replace(/\s+/g, " ")`: every maximal whitespace run becomes one space.
The boolean flag records whether the previous character belonged to a
whitespace run that has already emitted its space. -/
def collapseWs : Bool → List Char → List Char
  | _, [] => []
  | prevWs, c :: rest =>
    if jsIsWs c then
      if prevWs then collapseWs true rest else ' ' :: collapseWs true rest
    else c :: collapseWs false rest

/-- `normalize` from `DailyLogPage.jsx` lines 577-578:
`(s || "").toString().trim().toLowerCase().replace(/[^a-z0-9 ]/g, "").replace(/\s+/g, " ")`. -/
def normalize (l : List Char) : List Char :=
  collapseWs false (stripDisallowed (jsToLower (jsTrim l)))

/-- `a || b` on strings: `b` when `a` is nullish or the empty string. -/
def jsStrOr (a : Option (List Char)) (b : List Char) : List Char :=
  match a with
  | some s => if s = [] then b else s
  | none => b

/-! ### JS numbers -/

/-- A JS number: either an actual (rational) value or `NaN`.  Infinities never
arise in the fragment modelled here. -/
inductive JSNum where
  | num (q : ℚ)
  | nan
deriving DecidableEq, Repr

/-- `x || 0`: `NaN` (and `0` itself, unchanged) collapse to `0`. -/
def jsOrZero : JSNum → JSNum
  | .num q => .num q
  | .nan => .num 0

/-- `a ?? b` on numbers (`null`/`undefined` both modelled as `none`). -/
def jsNN (a : Option JSNum) (b : JSNum) : JSNum := a.getD b

/-- JS `Math.round`: round half-up. -/
def jround (q : ℚ) : ℤ := ⌊q + 1 / 2⌋

/-- `Math.round` lifted to JS numbers (`Math.round NaN = NaN`). -/
def jroundNum : JSNum → JSNum
  | .num q => .num (jround q)
  | .nan => .nan

/-- JS `+` on numbers: any `NaN` operand poisons the sum. -/
def jsAdd : JSNum → JSNum → JSNum
  | .num a, .num b => .num (a + b)
  | _, _ => .nan

/-! ### Data model

A stored daily-log document, as read back by `getDailyLogs`
(`src/firebaseHelpers.js` lines 60-66).  String fields are `Option`s because a
document may simply lack them.  Calendar-day strings (`YYYY-MM-DD`) are
modelled as integer day numbers, which they are order- and
successor-isomorphic to.  `manualOverride` comes from the spec's data model
(§3); the reconciliation code neither reads nor writes it. -/

/-- Macro objects attached to log entries / analysis results: every key that
`extractMealMacros` (App.js 207-221) or `analyzeItemsBackend`
(DailyLogPage.jsx 585-592) ever reads. -/
structure JSMacros where
  calories_kcal : Option JSNum := none
  energy_kcal : Option JSNum := none
  calories : Option JSNum := none
  total_calories : Option JSNum := none
  protein_g : Option JSNum := none
  total_protein : Option JSNum := none
  protein : Option JSNum := none
  total_carbohydrate_g : Option JSNum := none
  total_carbs : Option JSNum := none
  carbs_g : Option JSNum := none
  carbs : Option JSNum := none
  total_fat_g : Option JSNum := none
  total_fat : Option JSNum := none
  fats : Option JSNum := none
deriving DecidableEq, Repr

structure LogEntry where
  id : List Char
  item : Option (List Char) := none
  item_name : Option (List Char) := none
  category : Option (List Char) := none
  timestamp : Option ℤ := none
  date : Option ℤ := none
  calories : Option JSNum := none
  macros : Option JSMacros := none
  /-- only the `source` tag of the provenance object is modelled -/
  provenance : Option (List Char) := none
  /-- spec §3 field; invisible to the code -/
  manualOverride : Bool := false
deriving DecidableEq, Repr

/-- One item of the analysis-service response consumed by
`analyzeItemsBackend`. -/
structure AnalysisResult where
  id : Option (List Char) := none
  item : Option (List Char) := none
  name : Option (List Char) := none
  calories : Option JSNum := none
  macros : Option JSMacros := none
  provenance : Option (List Char) := none
deriving DecidableEq, Repr

/-! ### Reconciliation matcher (`analyzeItemsBackend`, DailyLogPage.jsx 580-623) -/

/-- `normalize(analyzed.item || analyzed.name || "")`. -/
def analyzedNameOf (r : AnalysisResult) : List Char :=
  normalize (jsStrOr r.item (jsStrOr r.name []))

/-- Rule 1 (line 594-596): first entry with
`normalize(l.item || l.item_name || "") === analyzedName &&
(l.category || "meal") === "meal"`. -/
def exactMatch (logs : List LogEntry) (aname : List Char) : Option LogEntry :=
  logs.find? fun l =>
    normalize (jsStrOr l.item (jsStrOr l.item_name [])) == aname &&
      jsStrOr l.category "meal".toList == "meal".toList

/-- `currentLogs.filter((l) => (l.category || "").toLowerCase() === "meal")`
(the list the positional and most-recent fallbacks draw from; despite the
source variable name `sameDateMeals` it is not date-filtered). -/
def lcMeals (logs : List LogEntry) : List LogEntry :=
  logs.filter fun l => jsToLower (jsStrOr l.category []) == "meal".toList

/-- `/item-(\d+)/.test(s)`: some suffix position starts `item-<digit>`. -/
def itemPatTest (l : List Char) : Bool :=
  l.tails.any fun t =>
    match t with
    | 'i' :: 't' :: 'e' :: 'm' :: '-' :: c :: _ => c.isDigit
    | _ => false

/-- `parseInt(s, 10)` restricted to what the call sites feed it: the value of
the leading digit run, `none` (`NaN`) when there is none. -/
def jsParseInt10 (l : List Char) : Option ℕ :=
  let ds := l.takeWhile Char.isDigit
  if ds = [] then none
  else some (ds.foldl (fun n c => 10 * n + (c.toNat - 48)) 0)

/-- `parseInt(analyzedId.split("-")[1], 10) || 0` (lines 597-598). -/
def posIdxOf (id : List Char) : ℕ :=
  (jsParseInt10 (((id.splitOn '-').get? 1).getD [])).getD 0

/-- Rule 2 (lines 597-601): positional fallback indexing into `lcMeals`. -/
def posMatch (logs : List LogEntry) (rid : Option (List Char)) : Option LogEntry :=
  match rid with
  | none => none
  | some id =>
    if id = [] then none
    else if itemPatTest id then (lcMeals logs).get? (posIdxOf id)
    else none

/-- Rule 3 (lines 602-606): substring containment, either direction, on
`normalize(l.item || "")` — note: no category filter at all. -/
def subMatch (logs : List LogEntry) (aname : List Char) : Option LogEntry :=
  if aname = [] then none
  else
    match logs.find? fun l => decide (aname <:+: normalize (jsStrOr l.item [])) with
    | some m => some m
    | none => logs.find? fun l => decide (normalize (jsStrOr l.item []) <:+: aname)

/-- `meals.slice().sort((a, b) => (b.timestamp || 0) - (a.timestamp || 0))[0]`:
the first element carrying the maximum `timestamp || 0` (JS `sort` is stable,
so ties keep the earlier element). -/
def pickNewest : List LogEntry → Option LogEntry
  | [] => none
  | x :: xs =>
    some (xs.foldl (fun acc l => if l.timestamp.getD 0 > acc.timestamp.getD 0 then l else acc) x)

/-- Rule 4 (lines 607-610): most-recent fallback over `lcMeals` (all days). -/
def recentMatch (logs : List LogEntry) : Option LogEntry :=
  pickNewest (lcMeals logs)

/-- The full matching cascade of `analyzeItemsBackend` for one result. -/
def findMatch (logs : List LogEntry) (r : AnalysisResult) : Option LogEntry :=
  match exactMatch logs (analyzedNameOf r) with
  | some m => some m
  | none =>
    match posMatch logs r.id with
    | some m => some m
    | none =>
      match subMatch logs (analyzedNameOf r) with
      | some m => some m
      | none => recentMatch logs

/-- `analyzed.macros || {}`. -/
def macrosOr (r : AnalysisResult) : JSMacros := r.macros.getD {}

/-- `Number(analyzed.calories ?? macros.calories_kcal ?? macros.energy_kcal ?? 0) || 0`. -/
def normCal (r : AnalysisResult) : JSNum :=
  jsOrZero (jsNN r.calories (jsNN (macrosOr r).calories_kcal
    (jsNN (macrosOr r).energy_kcal (.num 0))))

/-- `Number(macros.protein_g ?? macros.protein ?? 0) || 0`. -/
def normProt (r : AnalysisResult) : JSNum :=
  jsOrZero (jsNN (macrosOr r).protein_g (jsNN (macrosOr r).protein (.num 0)))

/-- `Number(macros.total_carbohydrate_g ?? macros.carbs ?? macros.total_carbs ?? 0) || 0`. -/
def normCarb (r : AnalysisResult) : JSNum :=
  jsOrZero (jsNN (macrosOr r).total_carbohydrate_g
    (jsNN (macrosOr r).carbs (jsNN (macrosOr r).total_carbs (.num 0))))

/-- `Number(macros.total_fat_g ?? macros.fats ?? macros.total_fat ?? 0) || 0`. -/
def normFat (r : AnalysisResult) : JSNum :=
  jsOrZero (jsNN (macrosOr r).total_fat_g
    (jsNN (macrosOr r).fats (jsNN (macrosOr r).total_fat (.num 0))))

/-- `{ calories_kcal: …, protein_g: …, total_carbohydrate_g: …,
total_fat_g: …, ...macros }` (lines 586-592): the spread comes *after* the
four normalised fields, so a key present in `macros` wins.  The `raw: macros`
key of `fullMacros` (line 613) is not modelled; nothing in scope reads it. -/
def fullMacros (r : AnalysisResult) : JSMacros :=
  let m := macrosOr r
  { m with
    calories_kcal := some (m.calories_kcal.getD (normCal r))
    protein_g := some (m.protein_g.getD (normProt r))
    total_carbohydrate_g := some (m.total_carbohydrate_g.getD (normCarb r))
    total_fat_g := some (m.total_fat_g.getD (normFat r)) }

/-- Whether `analyzed.id || null` is truthy (drives the provenance default). -/
def idTruthy (r : AnalysisResult) : Bool :=
  match r.id with
  | some id => id ≠ []
  | none => false

/-- The partial update written through `updateDailyLog` (lines 614-619):
`{ calories: fullMacros.calories_kcal, macros: fullMacros, provenance:
analyzed.provenance ?? { source: analyzedId ? "analyzed" : "unknown" } }`.
`updateDailyLog` merges fields, leaving all other fields intact. -/
def applyResult (e : LogEntry) (r : AnalysisResult) : LogEntry :=
  { e with
    calories := some ((macrosOr r).calories_kcal.getD (normCal r))
    macros := some (fullMacros r)
    provenance := some (r.provenance.getD
      (if idTruthy r then "analyzed".toList else "unknown".toList)) }

/-- One iteration of the `for` loop of `analyzeItemsBackend`: resolve the
match against the *original* `currentLogs` snapshot, skip when the match has
no truthy `id`, otherwise update the stored document with that id. -/
def stepOne (logs : List LogEntry) (r : AnalysisResult) (store : List LogEntry) :
    List LogEntry :=
  match findMatch logs r with
  | none => store
  | some m =>
    if m.id = [] then store
    else store.map fun e => if e.id = m.id then applyResult e r else e

/-- The whole reconciliation pass of `analyzeItemsBackend` (lines 580-623)
over the stored log set. -/
def reconcile (logs : List LogEntry) (results : List AnalysisResult) : List LogEntry :=
  results.foldl (fun store r => stepOne logs r store) logs

/-! ### Target Calculator (App.js 207-273) -/

/-- Profile fields as fed to `computeGoals` / `computeBMR`. -/
structure ProfileIn where
  sex : Option (List Char) := none
  weight_kg : Option JSNum := none
  height_cm : Option JSNum := none
  age : Option JSNum := none
  activity_level : Option (List Char) := none
  goal : Option (List Char) := none
deriving DecidableEq, Repr

/-- `Number(x) || d`: default on nullish, `NaN` and `0` alike (App.js uses
this shape for every numeric profile field). -/
def numOrDefault (v : Option JSNum) (d : ℚ) : ℚ :=
  match v with
  | some (.num q) => if q = 0 then d else q
  | some .nan => d
  | none => d

/-- `computeBMR` (App.js 223-230), Mifflin-St Jeor.  The JS default
parameters fire on the same nullish values the `Number(x) || d` guards catch,
so they are subsumed by `numOrDefault`. -/
def computeBMR (p : ProfileIn) : ℚ :=
  let w := numOrDefault p.weight_kg 70
  let h := numOrDefault p.height_cm 170
  let a := numOrDefault p.age 25
  if (jsToLower (jsStrOr p.sex "male".toList)).head? = some 'f' then
    10 * w + 25 / 4 * h - 5 * a - 161
  else
    10 * w + 25 / 4 * h - 5 * a + 5

/-- `activityFactor` (App.js 232-241); unknown levels fall back to `1.55`. -/
def activityFactor (level : List Char) : ℚ :=
  if level = "sedentary".toList then 12 / 10
  else if level = "lightly_active".toList then 1375 / 1000
  else if level = "moderately_active".toList then 155 / 100
  else if level = "very_active".toList then 1725 / 1000
  else if level = "athlete".toList then 19 / 10
  else 155 / 100

structure MacroGoals where
  calories : ℤ
  protein_g : ℤ
  carbs_g : ℤ
  fats_g : ℤ
deriving DecidableEq, Repr

structure Goals where
  bmr : ℤ
  tdee : ℤ
  macro_goals : MacroGoals
deriving DecidableEq, Repr

/-- `computeGoals` (App.js 243-273).  Rounding (`Math.round`) is applied only
when the output fields are built. -/
def computeGoals (p : ProfileIn) : Goals :=
  let bmr := computeBMR p
  let af := activityFactor (jsStrOr p.activity_level "moderately_active".toList)
  let tdee0 := bmr * af
  let goal := jsStrOr p.goal "maintenance".toList
  let tdee :=
    if goal = "weight_loss".toList then tdee0 * (85 / 100)
    else if goal = "weight_gain".toList then tdee0 * (11 / 10)
    else tdee0
  let protein_g := jround (numOrDefault p.weight_kg 70 * (16 / 10))
  let fats_g := jround (numOrDefault p.weight_kg 70 * (8 / 10))
  let kcalFromProtein := protein_g * 4
  let kcalFromFats := fats_g * 9
  let leftover := max 0 (tdee - (kcalFromProtein + kcalFromFats))
  let carbs_g := jround (leftover / 4)
  { bmr := jround bmr
    tdee := jround tdee
    macro_goals :=
      { calories := jround tdee
        protein_g := protein_g
        carbs_g := carbs_g
        fats_g := fats_g } }

/-! ### Daily aggregation (App.js 635-657) and `extractMealMacros` -/

/-- `extractMealMacros` output record (all four fields are JS numbers). -/
structure MealMacros where
  protein : JSNum
  carbs : JSNum
  fats : JSNum
  calories : JSNum
deriving DecidableEq, Repr

/-- `extractMealMacros` (App.js 207-221). -/
def extractMealMacros (macros : Option JSMacros) : MealMacros :=
  match macros with
  | none => ⟨.num 0, .num 0, .num 0, .num 0⟩
  | some m =>
    { protein := jsOrZero (jsNN m.protein_g (jsNN m.total_protein (jsNN m.protein (.num 0))))
      carbs := jsOrZero (jsNN m.total_carbohydrate_g (jsNN m.total_carbs
        (jsNN m.carbs_g (jsNN m.carbs (.num 0)))))
      fats := jsOrZero (jsNN m.total_fat_g (jsNN m.total_fat (jsNN m.fats (.num 0))))
      calories := jsOrZero (jsNN m.calories_kcal (jsNN m.calories
        (jsNN m.total_calories (.num 0)))) }

/-- `dateKey` (App.js 275-276) composed with the `l.date || dateKey(l.timestamp)`
pattern: the entry's stored day, else the UTC day of its timestamp, else
today.  Timestamps are epoch milliseconds; `Int.fdiv` is the floor division
underlying `toISOString`'s day. -/
def entryDay (today : ℤ) (e : LogEntry) : ℤ :=
  match e.date with
  | some d => d
  | none =>
    match e.timestamp with
    | some t => if t ≠ 0 then Int.fdiv t 86400000 else today
    | none => today

/-- `(l.category || "meal") !== "meal"` guard (used by the aggregation loop,
`computeStreaksFromLogs` and matching rule 1). -/
def isMealDefault (e : LogEntry) : Bool :=
  jsStrOr e.category "meal".toList == "meal".toList

structure Totals where
  calories : JSNum
  protein : JSNum
  carbs : JSNum
  fats : JSNum
deriving DecidableEq, Repr

/-- One step of the `rows.forEach` accumulation of today's totals
(App.js 640-651): skip wrong-day and non-meal rows, else add
`Number(l.calories ?? l.macros?.calories_kcal ?? 0) || 0` and the
`extractMealMacros` values. -/
def totalsStep (today : ℤ) (acc : Totals) (l : LogEntry) : Totals :=
  if entryDay today l ≠ today then acc
  else if !isMealDefault l then acc
  else
    let cal := jsOrZero (jsNN l.calories
      (jsNN (l.macros.bind JSMacros.calories_kcal) (.num 0)))
    let m := extractMealMacros l.macros
    { calories := jsAdd acc.calories cal
      protein := jsAdd acc.protein m.protein
      carbs := jsAdd acc.carbs m.carbs
      fats := jsAdd acc.fats m.fats }

/-- The whole aggregation (App.js 640-651) followed by the final
`Math.round`s (652-657). -/
def todayTotals (today : ℤ) (rows : List LogEntry) : Totals :=
  let acc := rows.foldl (totalsStep today) ⟨.num 0, .num 0, .num 0, .num 0⟩
  { calories := jroundNum acc.calories
    protein := jroundNum acc.protein
    carbs := jroundNum acc.carbs
    fats := jroundNum acc.fats }

/-! ### Streaks (`computeStreaksFromLogs`, App.js 764-820) -/

/-- The `Set` of meal days (App.js 766-772), as its deduplicated element
list (`Array.from(datesSet)`; only membership and the sorted version are ever
used, so the JS insertion order is irrelevant). -/
def mealDates (today : ℤ) (rows : List LogEntry) : List ℤ :=
  ((rows.filter isMealDefault).map (entryDay today)).dedup

/-- The `while (true)` walk backwards from today (App.js 786-797).  The JS
loop is unbounded but can take at most one successful step per distinct
member of the finite date set, so fuel `length + 1` computes the same
value. -/
def currentStreakAux (s : List ℤ) : ℕ → ℤ → ℕ
  | 0, _ => 0
  | fuel + 1, t => if t ∈ s then currentStreakAux s fuel (t - 1) + 1 else 0

/-- The single ascending scan for the best streak (App.js 801-817), state
`(prev, run, best)`. -/
def bestAux : ℤ → ℕ → ℕ → List ℤ → ℕ
  | _, _, best, [] => best
  | prev, run, best, d :: rest =>
    let run' := if d - prev = 1 then run + 1 else 1
    bestAux d run' (max best run') rest

/-- Scan over the ascending sorted distinct dates; the first element sets
`run = 1`, `best = max 0 1`. -/
def bestOf : List ℤ → ℕ
  | [] => 0
  | d :: rest => bestAux d 1 (max 0 1) rest

/-- `computeStreaksFromLogs` (App.js 764-820), parametrised by today's day.
`Array.from(datesSet).sort()` is ascending sorting of the distinct dates. -/
def computeStreaksFromLogs (today : ℤ) (rows : List LogEntry) : ℕ × ℕ :=
  let s := mealDates today rows
  if s = [] then (0, 0)
  else (currentStreakAux s (s.length + 1) today, bestOf (s.insertionSort (· ≤ ·)))

/-! ### Pollers

`pollForSummary` (DailyLogPage.jsx 841-860) and the polling loop of
`generateDailySummary` (firebaseHelpers.js 175-209).  Each status request is
drawn from an oracle `responses : ℕ → PollResp` (indexed by how many requests
happened before it); `jitter k` models `Math.floor(Math.random() * 500)` for
the k-th delay. -/

inductive PollBody where
  /-- `res.json()` rejects -/
  | malformed
  /-- `res.json()` resolves to a falsy value -/
  | nullJson
  /-- a JSON object `{status, summary?}` (summary payloads are abstracted to `ℕ`) -/
  | body (status : List Char) (summary : Option ℕ)
deriving DecidableEq, Repr

inductive PollResp where
  /-- the `fetch` itself rejects -/
  | netError
  | http (status : ℤ) (b : PollBody)
deriving DecidableEq, Repr

/-- One poll of `pollForSummary`: a summary is produced exactly when
`res.status === 200`, the body parses to a truthy object with
`status === "complete"` and a truthy `summary`.  Everything else (including a
rejected `fetch` or `res.json()`, both caught by the loop-level `try`) polls
again. -/
def pollCheck : PollResp → Option ℕ
  | .netError => none
  | .http st b =>
    if st = 200 then
      match b with
      | .malformed => none
      | .nullJson => none
      | .body s sm => if s = "complete".toList then sm else none
    else none

/-- `interval = Math.min(10000, Math.round(interval * 1.4))` (line 857). -/
def nextInterval (iv : ℤ) : ℤ :=
  min 10000 (jround ((iv : ℚ) * (14 / 10)))

structure PollRun where
  /-- `.error` is the `throw new Error(…)` escaping `pollForSummary` -/
  outcome : Except (List Char) ℕ
  /-- number of status requests issued -/
  attempts : ℕ
  /-- the inter-poll delays awaited, in order -/
  delays : List ℤ
deriving Repr

/-- The `while (attempt < maxAttempts)` loop of `pollForSummary`, fuel =
remaining attempts.  Each failed iteration awaits `interval + jitter` and
then grows the interval. -/
def pollLoop (responses : ℕ → PollResp) (jitter : ℕ → ℕ) :
    ℕ → ℕ → ℤ → List ℤ → PollRun
  | 0, att, _, acc => ⟨.error "Timed out waiting for summary".toList, att, acc.reverse⟩
  | fuel + 1, att, iv, acc =>
    match pollCheck (responses att) with
    | some s => ⟨.ok s, att + 1, acc.reverse⟩
    | none => pollLoop responses jitter fuel (att + 1) (nextInterval iv) ((iv + jitter att) :: acc)

/-- `pollForSummary(userId, dateIso, {interval = 1500, maxAttempts = 20})`. -/
def pollForSummary (responses : ℕ → PollResp) (jitter : ℕ → ℕ)
    (interval : ℤ) (maxAttempts : ℕ) : PollRun :=
  pollLoop responses jitter maxAttempts 0 interval []

structure GenRun where
  outcome : Option ℕ
  attempts : ℕ
deriving DecidableEq, Repr

/-- The polling loop of `generateDailySummary` (fixed interval, no backoff).
Its single `try` wraps the whole loop, so a rejected `fetch` or `res.json()`
aborts polling and yields `null`; a non-ok status or falsy/incomplete body
polls again; fuel exhaustion is the `console.warn`+`return null` timeout. -/
def genPollLoop (responses : ℕ → PollResp) : ℕ → ℕ → GenRun
  | 0, att => ⟨none, att⟩
  | fuel + 1, att =>
    match responses att with
    | .netError => ⟨none, att + 1⟩
    | .http st b =>
      if 200 ≤ st ∧ st ≤ 299 then
        match b with
        | .malformed => ⟨none, att + 1⟩
        | .nullJson => genPollLoop responses fuel (att + 1)
        | .body s sm =>
          if s = "complete".toList then
            match sm with
            | some v => ⟨some v, att + 1⟩
            | none => genPollLoop responses fuel (att + 1)
          else genPollLoop responses fuel (att + 1)
      else genPollLoop responses fuel (att + 1)

/-- `generateDailySummary` (firebaseHelpers.js 175-209): a failed kick-off
request returns `null` without polling, otherwise the status loop runs with
`maxAttempts` (default 30). -/
def generateDailySummary (startOk : Bool) (responses : ℕ → PollResp)
    (maxAttempts : ℕ) : GenRun :=
  if startOk then genPollLoop responses maxAttempts 0 else ⟨none, 0⟩

/-- Iterated backoff growth starting from interval `iv`. -/
def ivIter (iv : ℤ) : ℕ → ℤ
  | 0 => iv
  | k + 1 => nextInterval (ivIter iv k)

/-- The base (pre-jitter) interval sequence of `pollForSummary`, starting
from the documented call-site initial interval 1500 ms. -/
def intervalSeq : ℕ → ℤ := ivIter 1500

/-! ### Derived forms and concrete instances used by the theorems -/

/-- The effect of one loop iteration of `analyzeItemsBackend` on a single
stored entry: it is rewritten exactly when the result's match carries a
truthy id equal to the entry's. -/
def stepOneEntry (logs : List LogEntry) (r : AnalysisResult) (e : LogEntry) : LogEntry :=
  match findMatch logs r with
  | none => e
  | some m => if m.id = [] then e else if e.id = m.id then applyResult e r else e

/-- The per-entry composition of a whole reconciliation pass (results in
submission order, matched against the fixed `logs` snapshot). -/
def applyAll (logs : List LogEntry) : List AnalysisResult → LogEntry → LogEntry
  | [], e => e
  | r :: rs, e => applyAll logs rs (stepOneEntry logs r e)

/-- The substring relation of matching rule 3 between an entry and a
(nonempty) normalized result name. -/
def SubRel (e : LogEntry) (aname : List Char) : Prop :=
  aname ≠ [] ∧
    (aname <:+: normalize (jsStrOr e.item []) ∨ normalize (jsStrOr e.item []) <:+: aname)

instance (e : LogEntry) (aname : List Char) : Decidable (SubRel e aname) := by
  unfold SubRel; infer_instance

/-- A macro object every field of which is a non-numeric value (`NaN` after
`Number(…)` coercion). -/
def allNanMacros : JSMacros :=
  { calories_kcal := some .nan, energy_kcal := some .nan, calories := some .nan,
    total_calories := some .nan, protein_g := some .nan, total_protein := some .nan,
    protein := some .nan, total_carbohydrate_g := some .nan, total_carbs := some .nan,
    carbs_g := some .nan, carbs := some .nan, total_fat_g := some .nan,
    total_fat := some .nan, fats := some .nan }

/-- The spec's default profile: male, 70 kg, 170 cm, 25 years,
moderately_active, maintenance. -/
def defaultProfile : ProfileIn :=
  { sex := some "male".toList, weight_kg := some (.num 70),
    height_cm := some (.num 170), age := some (.num 25),
    activity_level := some "moderately_active".toList,
    goal := some "maintenance".toList }

/-- A response oracle that always reports a pending job. -/
def pendingResp : ℕ → PollResp := fun _ => .http 200 (.body "pending".toList none)

/-- Pending for the first two polls, then complete with payload 42. -/
def scenResp : ℕ → PollResp := fun k =>
  if k < 2 then .http 200 (.body "pending".toList none)
  else .http 200 (.body "complete".toList (some 42))

/-- Jitter draw maximising the 7th delay and minimising the 8th. -/
def cexJitter : ℕ → ℕ := fun k => if k = 6 then 499 else 0

/-- Water entry whose item text contains "water". -/
def cexWater : LogEntry :=
  { id := "W".toList, item := some "sparkling water".toList,
    category := some "water".toList, timestamp := some 1 }

/-- Meal entry under manual override. -/
def cexManual : LogEntry :=
  { id := "M".toList, item := some "toast".toList,
    category := some "meal".toList, timestamp := some 2, manualOverride := true }

def cexResWater : AnalysisResult := { name := some "water".toList }

def cexResToast : AnalysisResult := { name := some "toast".toList }

def cexToastEntry : LogEntry :=
  { id := "T".toList, item := some "toast".toList, category := some "meal".toList }

def cexResToast100 : AnalysisResult :=
  { name := some "toast".toList, calories := some (.num 100) }

def cexResToast200 : AnalysisResult :=
  { name := some "toast".toList, calories := some (.num 200) }

/-- Target-day (day 19724 = 2024-01-02) meal, earlier timestamp. -/
def cexMealToday : LogEntry :=
  { id := "A".toList, item := some "alpha".toList,
    category := some "meal".toList, timestamp := some 50, date := some 19724 }

/-- Previous-day meal with the larger timestamp. -/
def cexMealYesterday : LogEntry :=
  { id := "B".toList, item := some "beta".toList,
    category := some "meal".toList, timestamp := some 100, date := some 19723 }

def cexResUnmatched : AnalysisResult := { name := some "zzz".toList }

/-- First-submitted meal (timestamp 100). -/
def cexFirstMeal : LogEntry :=
  { id := "A".toList, item := some "apple pie".toList,
    category := some "meal".toList, timestamp := some 100 }

/-- Second-submitted meal (timestamp 200). -/
def cexSecondMeal : LogEntry :=
  { id := "B".toList, item := some "banana split".toList,
    category := some "meal".toList, timestamp := some 200 }

def cexResItem1 : AnalysisResult :=
  { id := some "item-1".toList, name := some "Xyz".toList }

/-- A today-meal entry all of whose nutrition fields coerce to `NaN`. -/
def cexNanEntry : LogEntry :=
  { id := "N".toList, category := some "meal".toList,
    calories := some .nan, macros := some allNanMacros }

/-- Meal entries on days 19723-19725 (2024-01-01 … 2024-01-03 as epoch
days). -/
def streakRows : List LogEntry :=
  [{ id := "a".toList, category := some "meal".toList, date := some 19723 },
   { id := "b".toList, category := some "meal".toList, date := some 19724 },
   { id := "c".toList, category := some "meal".toList, date := some 19725 }]

/-- No-`NaN` invariant of the accumulator. -/
def TotalsNum (t : Totals) : Prop :=
  t.calories ≠ .nan ∧ t.protein ≠ .nan ∧ t.carbs ≠ .nan ∧ t.fats ≠ .nan

/-! ### Structural facts about `normalize` (claim C4) -/

/-- Adjacent characters are never both whitespace. -/
def NoAdjWs (l : List Char) : Prop :=
  l.Chain' fun a b => ¬(jsIsWs a = true ∧ jsIsWs b = true)

theorem collapseWs_mem {c : Char} : ∀ {b : Bool} {l : List Char},
    c ∈ collapseWs b l → c = ' ' ∨ c ∈ l := by
  intro b l
  induction l generalizing b with
  | nil => simp [collapseWs]
  | cons d rest ih =>
    intro h
    simp only [collapseWs] at h
    by_cases hws : jsIsWs d = true
    · simp only [hws, if_true] at h
      cases b with
      | true =>
        rcases ih h with h' | h'
        · exact Or.inl h'
        · exact Or.inr (List.mem_cons_of_mem _ h')
      | false =>
        rcases List.mem_cons.mp h with h' | h'
        · exact Or.inl h'
        · rcases ih h' with h'' | h''
          · exact Or.inl h''
          · exact Or.inr (List.mem_cons_of_mem _ h'')
    · simp only [hws, if_false] at h
      rcases List.mem_cons.mp h with h' | h'
      · exact Or.inr (h' ▸ List.mem_cons_self _ _)
      · rcases ih h' with h'' | h''
        · exact Or.inl h''
        · exact Or.inr (List.mem_cons_of_mem _ h'')

theorem mem_normalize_allowed {c : Char} {l : List Char}
    (h : c ∈ normalize l) : allowedChar c = true := by
  rcases collapseWs_mem h with h' | h'
  · subst h'; decide
  · exact (List.mem_filter.mp h').2

theorem allowed_ws_eq_space {c : Char} (ha : allowedChar c = true)
    (hw : jsIsWs c = true) : c = ' ' := by
  simp only [jsIsWs, Bool.or_eq_true, beq_iff_eq] at hw
  rcases hw with ((((h | h) | h) | h) | h) | h
  · exact h
  all_goals (subst h; exact absurd ha (by decide))

/-- Heads of `collapseWs true l` are never whitespace, and outputs of
`collapseWs` never contain two adjacent whitespace characters. -/
theorem collapseWs_chain : ∀ l : List Char,
    NoAdjWs (collapseWs false l) ∧ NoAdjWs (collapseWs true l) ∧
      ∀ c, (collapseWs true l).head? = some c → jsIsWs c = false := by
  intro l
  induction l with
  | nil => refine ⟨List.chain'_nil, List.chain'_nil, ?_⟩; intro c h; simp [collapseWs] at h
  | cons d rest ih =>
    obtain ⟨ihf, iht, ihh⟩ := ih
    cases hd : jsIsWs d with
    | true =>
      refine ⟨?_, ?_, ?_⟩
      · simp only [collapseWs, hd, if_true]
        refine List.chain'_cons'.mpr ⟨?_, iht⟩
        intro y hy
        have := ihh y hy
        intro hcon
        rw [this] at hcon; cases hcon.2
      · simpa [collapseWs, hd] using iht
      · intro c h
        exact ihh c (by simpa [collapseWs, hd] using h)
    | false =>
      refine ⟨?_, ?_, ?_⟩
      · simp only [collapseWs, hd, Bool.false_eq_true, if_false]
        refine List.chain'_cons'.mpr ⟨?_, ihf⟩
        intro y _ hcon
        rw [hd] at hcon; cases hcon.1
      · simp only [collapseWs, hd, Bool.false_eq_true, if_false]
        refine List.chain'_cons'.mpr ⟨?_, ihf⟩
        intro y _ hcon
        rw [hd] at hcon; cases hcon.1
      · intro c h
        simp only [collapseWs, hd, Bool.false_eq_true, if_false, List.head?_cons,
          Option.some.injEq] at h
        rw [← h]; exact hd

/-- On lists whose only whitespace is a single space and which never hold two
adjacent whitespace characters, `collapseWs` is the identity. -/
theorem collapseWs_eq_self : ∀ l : List Char,
    (∀ c ∈ l, jsIsWs c = true → c = ' ') → NoAdjWs l →
    collapseWs false l = l ∧
      ((∀ c, l.head? = some c → jsIsWs c = false) → collapseWs true l = l) := by
  intro l
  induction l with
  | nil => exact fun _ _ => ⟨rfl, fun _ => rfl⟩
  | cons d rest ih =>
    intro hsp hchain
    obtain ⟨hhead, htail⟩ := List.chain'_cons'.mp hchain
    have hsp' : ∀ c ∈ rest, jsIsWs c = true → c = ' ' :=
      fun c hc => hsp c (List.mem_cons_of_mem _ hc)
    obtain ⟨ihf, iht⟩ := ih hsp' htail
    cases hws : jsIsWs d with
    | true =>
      have hd : d = ' ' := hsp d (List.mem_cons_self _ _) hws
      have hresthead : ∀ c, rest.head? = some c → jsIsWs c = false := by
        intro c hc
        have := hhead c hc
        cases h : jsIsWs c with
        | true => exact absurd ⟨hws, h⟩ this
        | false => rfl
      constructor
      · simp only [collapseWs, hws, if_true, Bool.false_eq_true, if_false]
        rw [iht hresthead, hd]
      · intro hhd
        have := hhd d rfl
        rw [hws] at this; cases this
    | false =>
      constructor
      · simp only [collapseWs, hws, Bool.false_eq_true, if_false]
        rw [ihf]
      · intro _
        simp only [collapseWs, hws, Bool.false_eq_true, if_false]
        rw [ihf]

theorem jsTrim_within (l : List Char) : jsTrim l <:+: l := by
  have h1 : jsTrim l <+: l.dropWhile jsIsWs := List.rdropWhile_prefix _ _
  have h2 : l.dropWhile jsIsWs <:+ l := List.dropWhile_suffix _
  have h1' := List.IsPrefix.isInfix h1
  have h2' := List.IsSuffix.isInfix h2
  exact List.IsInfix.trans h1' h2'

theorem allowed_toLower_eq {c : Char} (ha : allowedChar c = true) :
    jsToLowerChar c = c := by
  simp only [allowedChar, Bool.or_eq_true, Bool.and_eq_true, decide_eq_true_eq] at ha
  unfold jsToLowerChar
  rw [if_neg]
  omega

theorem normalize_normalize (l : List Char) :
    normalize (normalize l) = jsTrim (normalize l) := by
  set y := normalize l with hy
  have hmem : ∀ c ∈ y, allowedChar c = true := fun c hc => mem_normalize_allowed hc
  have hchain : NoAdjWs y := (collapseWs_chain _).1
  have htrimmem : ∀ c ∈ jsTrim y, allowedChar c = true :=
    fun c hc => hmem c (List.IsInfix.mem hc (jsTrim_within y))
  have htchain : NoAdjWs (jsTrim y) := List.Chain'.infix hchain (jsTrim_within y)
  have hlower : jsToLower (jsTrim y) = jsTrim y := by
    unfold jsToLower
    rw [List.map_congr_left fun c hc => allowed_toLower_eq (htrimmem c hc)]
    exact List.map_id _
  have hstrip : stripDisallowed (jsTrim y) = jsTrim y :=
    List.filter_eq_self.mpr htrimmem
  have hcollapse : collapseWs false (jsTrim y) = jsTrim y :=
    (collapseWs_eq_self (jsTrim y)
      (fun c hc hw => allowed_ws_eq_space (htrimmem c hc) hw) htchain).1
  show collapseWs false (stripDisallowed (jsToLower (jsTrim y))) = jsTrim y
  rw [hlower, hstrip, hcollapse]

/-! ### Claim C4 -/

/-- C4 (counterexample): `normalize` is not idempotent.  On `"a !"` the
strip step deletes the `'!'` and leaves a trailing space (`"a "`), which only
the `trim` of a second application removes. -/
theorem C4_cex : normalize (normalize "a !".toList) ≠ normalize "a !".toList := by
  decide

/-- C4 (amended): `normalize` is a pure total function and
`normalize (normalize x) = trim (normalize x)`; hence idempotence holds
exactly on inputs whose normalized form carries no boundary space. -/
theorem C4_normalize_trim_idempotent :
    ∀ l : List Char, normalize (normalize l) = jsTrim (normalize l) :=
  normalize_normalize

/-! ### Claim C9 -/

theorem computeBMR_default : computeBMR defaultProfile = 3285 / 2 := by
  unfold computeBMR
  rw [if_neg (by decide)]
  norm_num [defaultProfile, numOrDefault]

theorem computeGoals_default_tdee :
    (computeGoals defaultProfile).tdee = jround (3285 / 2 * (155 / 100)) := by
  have haf : activityFactor (jsStrOr defaultProfile.activity_level
      "moderately_active".toList) = 155 / 100 := by
    rw [show jsStrOr defaultProfile.activity_level "moderately_active".toList
        = "moderately_active".toList from by decide]
    unfold activityFactor
    rw [if_neg (by decide), if_neg (by decide), if_pos rfl]
  simp only [computeGoals]
  rw [computeBMR_default, haf,
    show jsStrOr defaultProfile.goal "maintenance".toList = "maintenance".toList from by decide,
    if_neg (by decide), if_neg (by decide)]

theorem computeGoals_default_tdee_val : (computeGoals defaultProfile).tdee = 2546 := by
  rw [computeGoals_default_tdee]
  unfold jround
  norm_num

/-- C9 (counterexample): for the default profile the code outputs
`tdee = 2546 = round(1642.5 × 1.55)`, not `round(1643 × 1.55) = 2547` as the
claim's `1643 × 1.55 ≈ 2546.65` asserts. -/
theorem C9_cex :
    (computeGoals defaultProfile).tdee = 2546 ∧
      jround ((1643 : ℚ) * (155 / 100)) = 2547 ∧
      (computeGoals defaultProfile).tdee ≠ jround ((1643 : ℚ) * (155 / 100)) := by
  have h2547 : jround ((1643 : ℚ) * (155 / 100)) = 2547 := by unfold jround; norm_num
  refine ⟨computeGoals_default_tdee_val, h2547, ?_⟩
  rw [computeGoals_default_tdee_val, h2547]
  decide

/-- C9 (amended): for the default profile (male, 70 kg, 170 cm, 25 y,
moderately_active, maintenance) `computeBMR` yields exactly 1642.5, rounded
to 1643 only in the output field, and the TDEE output is
`round(1642.5 × 1.55) = round(2545.875) = 2546` — rounding happens only at
the output fields, never on intermediate values. -/
theorem C9_default_profile :
    computeBMR defaultProfile = 3285 / 2 ∧
      (computeGoals defaultProfile).bmr = 1643 ∧
      (computeGoals defaultProfile).tdee = jround (3285 / 2 * (155 / 100)) ∧
      (computeGoals defaultProfile).tdee = 2546 := by
  refine ⟨computeBMR_default, ?_, computeGoals_default_tdee, computeGoals_default_tdee_val⟩
  simp only [computeGoals]
  rw [computeBMR_default]
  unfold jround
  norm_num

/-! ### Claim C10 -/

theorem jsOrZero_ne_nan (v : JSNum) : jsOrZero v ≠ .nan := by
  cases v <;> simp [jsOrZero]

theorem jsAdd_ne_nan {a b : JSNum} (ha : a ≠ .nan) (hb : b ≠ .nan) :
    jsAdd a b ≠ .nan := by
  cases a <;> cases b <;> simp_all [jsAdd]

theorem jsAdd_zero (a : JSNum) : jsAdd a (.num 0) = a := by
  cases a <;> simp [jsAdd]

theorem jroundNum_ne_nan {v : JSNum} (h : v ≠ .nan) : jroundNum v ≠ .nan := by
  cases v <;> simp_all [jroundNum]

theorem extractMealMacros_ne_nan (m : Option JSMacros) :
    (extractMealMacros m).protein ≠ .nan ∧ (extractMealMacros m).carbs ≠ .nan ∧
      (extractMealMacros m).fats ≠ .nan ∧ (extractMealMacros m).calories ≠ .nan := by
  cases m <;> simp [extractMealMacros, jsOrZero_ne_nan]

theorem totalsStep_num (today : ℤ) (l : LogEntry) {acc : Totals} (h : TotalsNum acc) :
    TotalsNum (totalsStep today acc l) := by
  unfold totalsStep
  split
  · exact h
  · split
    · exact h
    · obtain ⟨h1, h2, h3, h4⟩ := h
      obtain ⟨m1, m2, m3, m4⟩ := extractMealMacros_ne_nan l.macros
      exact ⟨jsAdd_ne_nan h1 (jsOrZero_ne_nan _), jsAdd_ne_nan h2 m1,
        jsAdd_ne_nan h3 m2, jsAdd_ne_nan h4 m3⟩

theorem foldl_totalsStep_num (today : ℤ) :
    ∀ (rows : List LogEntry) (acc : Totals), TotalsNum acc →
      TotalsNum (rows.foldl (totalsStep today) acc) := by
  intro rows
  induction rows with
  | nil => exact fun acc h => h
  | cons l rest ih => exact fun acc h => ih _ (totalsStep_num today l h)

/-- An entry whose nutrition fields yield no numbers adds `num 0` everywhere,
so the accumulator is unchanged. -/
theorem totalsStep_skip (today : ℤ) (acc : Totals) (e : LogEntry)
    (hcal : jsOrZero (jsNN e.calories
      (jsNN (e.macros.bind JSMacros.calories_kcal) (.num 0))) = .num 0)
    (hm : extractMealMacros e.macros = ⟨.num 0, .num 0, .num 0, .num 0⟩) :
    totalsStep today acc e = acc := by
  unfold totalsStep
  split
  · rfl
  · split
    · rfl
    · rw [hcal, hm]
      cases acc
      simp [jsAdd_zero]

/-- C10: the daily-totals aggregation is total at its interface: for every
log set none of the four returned totals is `NaN`, and an entry whose
`calories`/`macros` are missing (`null`/`undefined`) or non-numeric (all
fields coercing to `NaN`) contributes exactly 0, leaving the totals
unchanged.  (`todayTotals` and `extractMealMacros` are Lean functions, so
they cannot throw.) -/
theorem C10_totals_safe :
    (∀ (today : ℤ) (rows : List LogEntry),
      (todayTotals today rows).calories ≠ .nan ∧ (todayTotals today rows).protein ≠ .nan ∧
        (todayTotals today rows).carbs ≠ .nan ∧ (todayTotals today rows).fats ≠ .nan) ∧
    (∀ (today : ℤ) (rows : List LogEntry) (e : LogEntry),
      e.calories = none → e.macros = none →
        todayTotals today (rows ++ [e]) = todayTotals today rows) ∧
    (∀ (today : ℤ) (rows : List LogEntry) (e : LogEntry),
      e.calories = some .nan → e.macros = some allNanMacros →
        todayTotals today (rows ++ [e]) = todayTotals today rows) := by
  refine ⟨?_, ?_, ?_⟩
  · intro today rows
    obtain ⟨h1, h2, h3, h4⟩ := foldl_totalsStep_num today rows
      ⟨.num 0, .num 0, .num 0, .num 0⟩ (by refine ⟨?_, ?_, ?_, ?_⟩ <;> simp)
    exact ⟨jroundNum_ne_nan h1, jroundNum_ne_nan h2, jroundNum_ne_nan h3, jroundNum_ne_nan h4⟩
  · intro today rows e hc hm
    unfold todayTotals
    rw [List.foldl_append, List.foldl_cons, List.foldl_nil,
      totalsStep_skip today _ e (by rw [hc, hm]; rfl) (by rw [hm]; rfl)]
  · intro today rows e hc hm
    unfold todayTotals
    rw [List.foldl_append, List.foldl_cons, List.foldl_nil,
      totalsStep_skip today _ e (by rw [hc, hm]; decide) (by rw [hm]; decide)]

/-- Witness for C10 at concrete inputs. -/
theorem C10_totals_safe_w :
    todayTotals 5 ([cexWater] ++ [cexToastEntry]) = todayTotals 5 [cexWater] ∧
      todayTotals 5 ([cexWater] ++ [cexNanEntry]) = todayTotals 5 [cexWater] :=
  ⟨C10_totals_safe.2.1 5 [cexWater] cexToastEntry rfl rfl,
   C10_totals_safe.2.2 5 [cexWater] cexNanEntry rfl rfl⟩

/-! ### Poller lemmas (claims C2, C7) -/

theorem ivIter_shift (iv : ℤ) : ∀ k, ivIter (nextInterval iv) k = ivIter iv (k + 1) := by
  intro k
  induction k with
  | zero => rfl
  | succ k ih => show nextInterval (ivIter (nextInterval iv) k) = _; rw [ih]; rfl

theorem pollLoop_attempts_le (responses : ℕ → PollResp) (jitter : ℕ → ℕ) :
    ∀ (fuel att : ℕ) (iv : ℤ) (acc : List ℤ),
      (pollLoop responses jitter fuel att iv acc).attempts ≤ att + fuel := by
  intro fuel
  induction fuel with
  | zero => intro att iv acc; simp [pollLoop]
  | succ f ih =>
    intro att iv acc
    cases hc : pollCheck (responses att) with
    | some s =>
      simp only [pollLoop, hc]
      omega
    | none =>
      simp only [pollLoop, hc]
      exact le_trans (ih (att + 1) _ _) (by omega)

theorem pollLoop_error_msg (responses : ℕ → PollResp) (jitter : ℕ → ℕ) :
    ∀ (fuel att : ℕ) (iv : ℤ) (acc : List ℤ) (s : List Char),
      (pollLoop responses jitter fuel att iv acc).outcome = .error s →
        s = "Timed out waiting for summary".toList ∧
          (pollLoop responses jitter fuel att iv acc).attempts = att + fuel := by
  intro fuel
  induction fuel with
  | zero =>
    intro att iv acc s h
    simp [pollLoop] at h ⊢
    exact h.symm
  | succ f ih =>
    intro att iv acc s h
    cases hc : pollCheck (responses att) with
    | some v =>
      simp only [pollLoop, hc] at h
      cases h
    | none =>
      simp only [pollLoop, hc] at h ⊢
      exact ⟨(ih _ _ _ _ h).1, ((ih _ _ _ _ h).2).trans (by omega)⟩

theorem pollLoop_allNone (responses : ℕ → PollResp) (jitter : ℕ → ℕ)
    (h : ∀ n, pollCheck (responses n) = none) :
    ∀ (fuel att : ℕ) (iv : ℤ) (acc : List ℤ),
      pollLoop responses jitter fuel att iv acc =
        ⟨.error "Timed out waiting for summary".toList, att + fuel,
          acc.reverse ++ (List.range fuel).map fun k => ivIter iv k + jitter (att + k)⟩ := by
  intro fuel
  induction fuel with
  | zero => intro att iv acc; simp [pollLoop]
  | succ f ih =>
    intro att iv acc
    simp only [pollLoop, h att]
    rw [ih (att + 1) (nextInterval iv) _]
    congr 1
    · omega
    · rw [List.reverse_cons, List.append_assoc, List.range_succ_eq_map, List.map_cons,
        List.map_map, List.singleton_append]
      have hmap : (List.range f).map
            (fun k => ivIter (nextInterval iv) k + (jitter (att + 1 + k) : ℤ))
          = (List.range f).map
            ((fun k => ivIter iv k + (jitter (att + k) : ℤ)) ∘ Nat.succ) := by
        refine List.map_congr_left ?_
        intro k _
        show ivIter (nextInterval iv) k + (jitter (att + 1 + k) : ℤ)
            = ivIter iv (k + 1) + (jitter (att + (k + 1)) : ℤ)
        rw [ivIter_shift]
        have h1 : att + 1 + k = att + (k + 1) := by omega
        rw [h1]
      rw [hmap]
      simp [ivIter]

theorem genPollLoop_attempts_le (responses : ℕ → PollResp) :
    ∀ (fuel att : ℕ), (genPollLoop responses fuel att).attempts ≤ att + fuel := by
  intro fuel
  induction fuel with
  | zero => intro att; simp [genPollLoop]
  | succ f ih =>
    intro att
    cases hr : responses att with
    | netError => simp only [genPollLoop, hr]; omega
    | http st b =>
      by_cases hok : 200 ≤ st ∧ st ≤ 299
      · cases b with
        | malformed => simp only [genPollLoop, hr, if_pos hok]; omega
        | nullJson =>
          simp only [genPollLoop, hr, if_pos hok]
          exact le_trans (ih (att + 1)) (by omega)
        | body s sm =>
          by_cases hs : s = "complete".toList
          · cases sm with
            | some v => simp only [genPollLoop, hr, if_pos hok, if_pos hs]; omega
            | none =>
              simp only [genPollLoop, hr, if_pos hok, if_pos hs]
              exact le_trans (ih (att + 1)) (by omega)
          · simp only [genPollLoop, hr, if_pos hok, if_neg hs]
            exact le_trans (ih (att + 1)) (by omega)
      · simp only [genPollLoop, hr, if_neg hok]
        exact le_trans (ih (att + 1)) (by omega)

theorem genPollLoop_pending (responses : ℕ → PollResp)
    (h : ∀ n, responses n = .http 200 (.body "pending".toList none)) :
    ∀ (fuel att : ℕ), genPollLoop responses fuel att = ⟨none, att + fuel⟩ := by
  intro fuel
  induction fuel with
  | zero => intro att; simp [genPollLoop]
  | succ f ih =>
    intro att
    simp only [genPollLoop, h att]
    rw [if_pos (by decide : (200 : ℤ) ≤ 200 ∧ (200 : ℤ) ≤ 299), if_neg (by decide),
      ih (att + 1)]
    congr 1
    omega

/-! ### Claim C2 -/

/-- C2 (counterexample): with every status response pending, `pollForSummary`
(default options: interval 1500, maxAttempts 20) does *not* return a timeout
as an absence-of-result: after its 20 requests it throws
`Error("Timed out waiting for summary")` out of the poller. -/
theorem C2_cex :
    (pollForSummary pendingResp (fun _ => 0) 1500 20).outcome
        = .error "Timed out waiting for summary".toList ∧
      (pollForSummary pendingResp (fun _ => 0) 1500 20).attempts = 20 := by
  rw [pollForSummary, pollLoop_allNone pendingResp (fun _ => 0) (fun n => rfl) 20 0 1500 []]
  exact ⟨rfl, rfl⟩

/-- C2 (amended): both pollers issue at most `maxAttempts` status requests
and never propagate a poll-level network error or malformed body mid-loop:
the only exception `pollForSummary` can raise is the final timeout `Error`
(after exactly `maxAttempts` requests), while `generateDailySummary` signals
timeout as `null` (absence-of-result) after `maxAttempts` pending polls. -/
theorem C2_poller_timeout_semantics :
    (∀ (responses : ℕ → PollResp) (jitter : ℕ → ℕ) (iv : ℤ) (m : ℕ),
      (pollForSummary responses jitter iv m).attempts ≤ m) ∧
    (∀ (responses : ℕ → PollResp) (jitter : ℕ → ℕ) (iv : ℤ) (m : ℕ) (s : List Char),
      (pollForSummary responses jitter iv m).outcome = .error s →
        s = "Timed out waiting for summary".toList ∧
          (pollForSummary responses jitter iv m).attempts = m) ∧
    (∀ (responses : ℕ → PollResp) (jitter : ℕ → ℕ) (iv : ℤ) (m : ℕ),
      (∀ n, pollCheck (responses n) = none) →
        (pollForSummary responses jitter iv m).outcome
            = .error "Timed out waiting for summary".toList ∧
          (pollForSummary responses jitter iv m).attempts = m) ∧
    (∀ (startOk : Bool) (responses : ℕ → PollResp) (m : ℕ),
      (generateDailySummary startOk responses m).attempts ≤ m) ∧
    (∀ (responses : ℕ → PollResp) (m : ℕ),
      (∀ n, responses n = .http 200 (.body "pending".toList none)) →
        generateDailySummary true responses m = ⟨none, m⟩) := by
  refine ⟨?_, ?_, ?_, ?_, ?_⟩
  · intro responses jitter iv m
    simpa using pollLoop_attempts_le responses jitter m 0 iv []
  · intro responses jitter iv m s h
    have := pollLoop_error_msg responses jitter m 0 iv [] s h
    simpa using this
  · intro responses jitter iv m h
    rw [pollForSummary, pollLoop_allNone responses jitter h m 0 iv []]
    exact ⟨rfl, by simp⟩
  · intro startOk responses m
    cases startOk with
    | true => simpa [generateDailySummary] using genPollLoop_attempts_le responses m 0
    | false => simp [generateDailySummary]
  · intro responses m h
    rw [generateDailySummary, if_pos rfl, genPollLoop_pending responses h m 0]
    simp

/-- Witness for C2 at a concrete all-pending oracle. -/
theorem C2_poller_timeout_semantics_w :
    (pollForSummary pendingResp (fun _ => 1) 1500 5).outcome
        = .error "Timed out waiting for summary".toList ∧
      generateDailySummary true pendingResp 30 = ⟨none, 30⟩ :=
  ⟨(C2_poller_timeout_semantics.2.2.1 pendingResp (fun _ => 1) 1500 5 fun _ => rfl).1,
   C2_poller_timeout_semantics.2.2.2.2 pendingResp 30 fun _ => rfl⟩

/-! ### Claim C7 -/

/-- `Math.round(iv * 1.4)` over the integer-valued intervals, reduced to
integer floor division. -/
theorem nextInterval_eval (iv : ℤ) : nextInterval iv = min 10000 ((14 * iv + 5) / 10) := by
  unfold nextInterval jround
  congr 1
  have h : (iv : ℚ) * (14 / 10) + 1 / 2 = ((14 * iv + 5 : ℤ) : ℚ) / ((10 : ℕ) : ℚ) := by
    push_cast
    ring
  rw [h, Rat.floor_intCast_div_natCast]
  norm_num

theorem intervalSeq_bounds : ∀ k, 1500 ≤ intervalSeq k ∧ intervalSeq k ≤ 10000 := by
  intro k
  induction k with
  | zero => exact ⟨le_refl _, by norm_num [intervalSeq, ivIter]⟩
  | succ k ih =>
    show 1500 ≤ nextInterval (intervalSeq k) ∧ nextInterval (intervalSeq k) ≤ 10000
    rw [nextInterval_eval]
    obtain ⟨h1, h2⟩ := ih
    exact ⟨le_min (by norm_num) (by omega), min_le_left _ _⟩

theorem intervalSeq_mono (k : ℕ) : intervalSeq k ≤ intervalSeq (k + 1) := by
  obtain ⟨h1, h2⟩ := intervalSeq_bounds k
  show intervalSeq k ≤ nextInterval (intervalSeq k)
  rw [nextInterval_eval]
  exact le_min h2 (by omega)

theorem pollLoop_step_none {responses : ℕ → PollResp} {jitter : ℕ → ℕ}
    {fuel att : ℕ} {iv : ℤ} {acc : List ℤ} (h : pollCheck (responses att) = none) :
    pollLoop responses jitter (fuel + 1) att iv acc
      = pollLoop responses jitter fuel (att + 1) (nextInterval iv)
          ((iv + jitter att) :: acc) := by
  simp only [pollLoop, h]

theorem pollLoop_step_some {responses : ℕ → PollResp} {jitter : ℕ → ℕ}
    {fuel att : ℕ} {iv : ℤ} {acc : List ℤ} {s : ℕ}
    (h : pollCheck (responses att) = some s) :
    pollLoop responses jitter (fuel + 1) att iv acc = ⟨.ok s, att + 1, acc.reverse⟩ := by
  simp only [pollLoop, h]

/-- The first relation step of a `Chain'` across explicit indices. -/
theorem chain'_get?_rel {α : Type} {R : α → α → Prop} :
    ∀ {l : List α} {i : ℕ} {a b : α},
      l.Chain' R → l.get? i = some a → l.get? (i + 1) = some b → R a b := by
  intro l
  induction l with
  | nil => intro i a b _ ha; simp at ha
  | cons x xs ih =>
    intro i a b hch ha hb
    obtain ⟨hhead, htail⟩ := List.chain'_cons'.mp hch
    cases i with
    | zero =>
      simp only [List.get?_cons_zero, Option.some.injEq] at ha
      subst ha
      have hxb : xs.head? = some b := by rw [← List.get?_zero]; exact hb
      exact hhead b (Option.mem_def.mpr hxb)
    | succ i =>
      exact ih htail (by simpa using ha) (by simpa using hb)

theorem ivIter_1500_6 : ivIter 1500 6 = 10000 := by
  have h1 : ivIter 1500 1 = 2100 := by
    show nextInterval (ivIter 1500 0) = 2100
    rw [show ivIter 1500 0 = 1500 from rfl, nextInterval_eval]
    decide
  have h2 : ivIter 1500 2 = 2940 := by
    show nextInterval (ivIter 1500 1) = 2940
    rw [h1, nextInterval_eval]; decide
  have h3 : ivIter 1500 3 = 4116 := by
    show nextInterval (ivIter 1500 2) = 4116
    rw [h2, nextInterval_eval]; decide
  have h4 : ivIter 1500 4 = 5762 := by
    show nextInterval (ivIter 1500 3) = 5762
    rw [h3, nextInterval_eval]; decide
  have h5 : ivIter 1500 5 = 8067 := by
    show nextInterval (ivIter 1500 4) = 8067
    rw [h4, nextInterval_eval]; decide
  show nextInterval (ivIter 1500 5) = 10000
  rw [h5, nextInterval_eval]; decide

theorem ivIter_1500_7 : ivIter 1500 7 = 10000 := by
  show nextInterval (ivIter 1500 6) = 10000
  rw [ivIter_1500_6, nextInterval_eval]; decide

/-- C7 (counterexample): with jitter draw 499 on the 7th delay and 0 on the
8th (both in the allowed `[0, 500)` range), the all-pending run's inter-call
delays are `…, 10499, 10000, …` — the delay sequence is *not*
non-decreasing once the 10 s cap is reached. -/
theorem C7_cex :
    (∀ n, cexJitter n < 500) ∧
      (pollForSummary pendingResp cexJitter 1500 20).delays.get? 6 = some 10499 ∧
      (pollForSummary pendingResp cexJitter 1500 20).delays.get? 7 = some 10000 ∧
      ¬ (pollForSummary pendingResp cexJitter 1500 20).delays.Chain' (· ≤ ·) := by
  have hdel := pollLoop_allNone pendingResp cexJitter (fun _ => rfl) 20 0 1500 []
  rw [pollForSummary] at *
  have h6 : (pollLoop pendingResp cexJitter 20 0 1500 []).delays.get? 6 = some 10499 := by
    rw [hdel]
    simp only [List.reverse_nil, List.nil_append, List.get?_map]
    rw [show (List.range 20).get? 6 = some 6 from by decide]
    simp only [Option.map_some']
    rw [show (0 : ℕ) + 6 = 6 from rfl]
    rw [show ivIter 1500 6 + (cexJitter 6 : ℤ) = 10499 from by rw [ivIter_1500_6]; decide]
  have h7 : (pollLoop pendingResp cexJitter 20 0 1500 []).delays.get? 7 = some 10000 := by
    rw [hdel]
    simp only [List.reverse_nil, List.nil_append, List.get?_map]
    rw [show (List.range 20).get? 7 = some 7 from by decide]
    simp only [Option.map_some']
    rw [show (0 : ℕ) + 7 = 7 from rfl]
    rw [show ivIter 1500 7 + (cexJitter 7 : ℤ) = 10000 from by rw [ivIter_1500_7]; decide]
  refine ⟨?_, h6, h7, ?_⟩
  · intro n
    unfold cexJitter
    split <;> norm_num
  · intro hch
    have := chain'_get?_rel hch h6 h7
    omega

/-- C7 (amended): after each non-terminal poll the base interval is
multiplied by ~1.4 and capped at 10000 ms, so the base interval sequence is
non-decreasing and capped; jitter in `[0, 500)` is added to each delay, so
every inter-call delay is below 10500 ms, but the jittered delays themselves
need not be non-decreasing (see the counterexample).  In the scenario
pending, pending, complete the poller returns the summary after exactly 3
status calls, and there the two delays are non-decreasing for every jitter
draw. -/
theorem C7_backoff_behavior :
    (∀ k, intervalSeq k ≤ intervalSeq (k + 1) ∧ intervalSeq k ≤ 10000) ∧
    (∀ (responses : ℕ → PollResp) (jitter : ℕ → ℕ) (m : ℕ),
      (∀ n, pollCheck (responses n) = none) →
        (pollForSummary responses jitter 1500 m).delays
          = (List.range m).map fun k => intervalSeq k + jitter k) ∧
    (∀ (responses : ℕ → PollResp) (jitter : ℕ → ℕ) (m : ℕ),
      (∀ n, pollCheck (responses n) = none) → (∀ n, jitter n < 500) →
        ∀ d ∈ (pollForSummary responses jitter 1500 m).delays, d < 10500) ∧
    (∀ jitter : ℕ → ℕ,
      (pollForSummary scenResp jitter 1500 20).outcome = .ok 42 ∧
        (pollForSummary scenResp jitter 1500 20).attempts = 3 ∧
        (pollForSummary scenResp jitter 1500 20).delays
          = [1500 + jitter 0, 2100 + jitter 1]) ∧
    (∀ jitter : ℕ → ℕ, (∀ n, jitter n < 500) →
      (pollForSummary scenResp jitter 1500 20).delays.Chain' (· ≤ ·)) := by
  have hscen : ∀ jitter : ℕ → ℕ, pollForSummary scenResp jitter 1500 20
      = ⟨.ok 42, 3, [1500 + jitter 0, 2100 + jitter 1]⟩ := by
    intro jitter
    have h0 : pollCheck (scenResp 0) = none := rfl
    have h1 : pollCheck (scenResp 1) = none := rfl
    have h2 : pollCheck (scenResp 2) = some 42 := rfl
    rw [pollForSummary, show (20 : ℕ) = 19 + 1 from rfl, pollLoop_step_none h0,
      show (0 : ℕ) + 1 = 1 from rfl,
      show nextInterval 1500 = 2100 from by rw [nextInterval_eval]; decide,
      show (19 : ℕ) = 18 + 1 from rfl, pollLoop_step_none h1,
      show (1 : ℕ) + 1 = 2 from rfl,
      show nextInterval 2100 = 2940 from by rw [nextInterval_eval]; decide,
      show (18 : ℕ) = 17 + 1 from rfl, pollLoop_step_some h2]
    rfl
  refine ⟨?_, ?_, ?_, ?_, ?_⟩
  · exact fun k => ⟨intervalSeq_mono k, (intervalSeq_bounds k).2⟩
  · intro responses jitter m h
    rw [pollForSummary, pollLoop_allNone responses jitter h m 0 1500 []]
    simp [intervalSeq]
  · intro responses jitter m h hj d hd
    rw [pollForSummary, pollLoop_allNone responses jitter h m 0 1500 []] at hd
    simp only [List.reverse_nil, List.nil_append, List.mem_map, List.mem_range] at hd
    obtain ⟨k, _, hk⟩ := hd
    have hb := (intervalSeq_bounds k).2
    have hjk := hj (0 + k)
    show d < 10500
    rw [← hk]
    have : intervalSeq k = ivIter 1500 k := rfl
    omega
  · intro jitter
    rw [hscen jitter]
    exact ⟨rfl, rfl, rfl⟩
  · intro jitter hj
    rw [hscen jitter]
    refine List.chain'_cons.mpr ⟨?_, List.chain'_singleton _⟩
    have := hj 0
    omega

/-- Witness for C7 at a concrete jitter draw. -/
theorem C7_backoff_behavior_w :
    (pollForSummary pendingResp (fun _ => 3) 1500 4).delays
        = (List.range 4).map (fun k => intervalSeq k + 3) ∧
      (pollForSummary scenResp (fun _ => 3) 1500 20).attempts = 3 ∧
      (pollForSummary scenResp (fun _ => 3) 1500 20).delays.Chain' (· ≤ ·) :=
  ⟨C7_backoff_behavior.2.1 pendingResp (fun _ => 3) 4 (fun _ => rfl),
   (C7_backoff_behavior.2.2.2.1 (fun _ => 3)).2.1,
   C7_backoff_behavior.2.2.2.2 (fun _ => 3) (fun _ => by norm_num)⟩

/-! ### Reconciliation matcher lemmas (claims C1, C3, C5, C6) -/

theorem stepOne_eq_map (logs : List LogEntry) (r : AnalysisResult) (store : List LogEntry) :
    stepOne logs r store = store.map (stepOneEntry logs r) := by
  cases h : findMatch logs r with
  | none =>
    simp only [stepOne, h]
    rw [show store.map (stepOneEntry logs r) = store.map id from
      List.map_congr_left fun e _ => by simp [stepOneEntry, h], List.map_id]
  | some m =>
    by_cases hid : m.id = []
    · simp only [stepOne, h, if_pos hid]
      rw [show store.map (stepOneEntry logs r) = store.map id from
        List.map_congr_left fun e _ => by simp [stepOneEntry, h, hid], List.map_id]
    · simp only [stepOne, h, if_neg hid]
      exact (List.map_congr_left fun e _ => by simp [stepOneEntry, h, hid]).symm

theorem foldl_stepOne_eq_map (logs : List LogEntry) :
    ∀ (rs : List AnalysisResult) (store : List LogEntry),
      rs.foldl (fun st r => stepOne logs r st) store = store.map (applyAll logs rs) := by
  intro rs
  induction rs with
  | nil =>
    intro store
    rw [List.foldl_nil, show applyAll logs [] = id from funext fun e => rfl, List.map_id]
  | cons r rs ih =>
    intro store
    rw [List.foldl_cons, ih (stepOne logs r store), stepOne_eq_map, List.map_map]
    rfl

theorem reconcile_eq_map (logs : List LogEntry) (rs : List AnalysisResult) :
    reconcile logs rs = logs.map (applyAll logs rs) :=
  foldl_stepOne_eq_map logs rs logs

theorem reconcile_get? (logs : List LogEntry) (rs : List AnalysisResult) (i : ℕ) :
    (reconcile logs rs).get? i = (logs.get? i).map (applyAll logs rs) := by
  rw [reconcile_eq_map, List.get?_map]

/-- The fields reconciliation never writes. -/
theorem stepOneEntry_frame (logs : List LogEntry) (r : AnalysisResult) (e : LogEntry) :
    (stepOneEntry logs r e).id = e.id ∧ (stepOneEntry logs r e).item = e.item ∧
      (stepOneEntry logs r e).item_name = e.item_name ∧
      (stepOneEntry logs r e).category = e.category ∧
      (stepOneEntry logs r e).timestamp = e.timestamp ∧
      (stepOneEntry logs r e).date = e.date ∧
      (stepOneEntry logs r e).manualOverride = e.manualOverride := by
  unfold stepOneEntry
  split
  · exact ⟨rfl, rfl, rfl, rfl, rfl, rfl, rfl⟩
  · split
    · exact ⟨rfl, rfl, rfl, rfl, rfl, rfl, rfl⟩
    · split
      · exact ⟨rfl, rfl, rfl, rfl, rfl, rfl, rfl⟩
      · exact ⟨rfl, rfl, rfl, rfl, rfl, rfl, rfl⟩

theorem applyAll_frame (logs : List LogEntry) :
    ∀ (rs : List AnalysisResult) (e : LogEntry),
      (applyAll logs rs e).id = e.id ∧ (applyAll logs rs e).item = e.item ∧
        (applyAll logs rs e).item_name = e.item_name ∧
        (applyAll logs rs e).category = e.category ∧
        (applyAll logs rs e).timestamp = e.timestamp ∧
        (applyAll logs rs e).date = e.date ∧
        (applyAll logs rs e).manualOverride = e.manualOverride := by
  intro rs
  induction rs with
  | nil => exact fun e => ⟨rfl, rfl, rfl, rfl, rfl, rfl, rfl⟩
  | cons r rs ih =>
    intro e
    obtain ⟨f1, f2, f3, f4, f5, f6, f7⟩ := ih (stepOneEntry logs r e)
    obtain ⟨g1, g2, g3, g4, g5, g6, g7⟩ := stepOneEntry_frame logs r e
    exact ⟨f1.trans g1, f2.trans g2, f3.trans g3, f4.trans g4, f5.trans g5,
      f6.trans g6, f7.trans g7⟩

theorem lcMeals_mem {logs : List LogEntry} {m : LogEntry} (h : m ∈ lcMeals logs) :
    m ∈ logs ∧ jsToLower (jsStrOr m.category []) = "meal".toList := by
  obtain ⟨hm, hp⟩ := List.mem_filter.mp h
  exact ⟨hm, by simpa using hp⟩

theorem exactMatch_some {logs : List LogEntry} {aname : List Char} {m : LogEntry}
    (h : exactMatch logs aname = some m) :
    m ∈ logs ∧ normalize (jsStrOr m.item (jsStrOr m.item_name [])) = aname ∧
      jsStrOr m.category "meal".toList = "meal".toList := by
  have hp := List.find?_some h
  simp only [Bool.and_eq_true, beq_iff_eq] at hp
  exact ⟨List.mem_of_find?_eq_some h, hp.1, hp.2⟩

theorem posMatch_some {logs : List LogEntry} {rid : Option (List Char)} {m : LogEntry}
    (h : posMatch logs rid = some m) : m ∈ lcMeals logs := by
  cases rid with
  | none => simp [posMatch] at h
  | some id =>
    simp only [posMatch] at h
    by_cases h1 : id = []
    · rw [if_pos h1] at h; cases h
    · rw [if_neg h1] at h
      by_cases h2 : itemPatTest id = true
      · rw [if_pos h2] at h
        exact List.get?_mem h
      · rw [if_neg h2] at h; cases h

theorem subMatch_some {logs : List LogEntry} {aname : List Char} {m : LogEntry}
    (h : subMatch logs aname = some m) : m ∈ logs ∧ SubRel m aname := by
  unfold subMatch at h
  split at h
  · cases h
  · rename_i hne
    cases hf : logs.find? fun l => decide (aname <:+: normalize (jsStrOr l.item [])) with
    | some m' =>
      simp only [hf] at h
      cases h
      have hp := List.find?_some hf
      exact ⟨List.mem_of_find?_eq_some hf, hne, Or.inl (of_decide_eq_true hp)⟩
    | none =>
      simp only [hf] at h
      have hp := List.find?_some h
      exact ⟨List.mem_of_find?_eq_some h, hne, Or.inr (of_decide_eq_true hp)⟩

theorem pickNewest_foldl (xs : List LogEntry) :
    ∀ a : LogEntry,
      (xs.foldl (fun acc l => if l.timestamp.getD 0 > acc.timestamp.getD 0 then l else acc) a)
          ∈ a :: xs ∧
        a.timestamp.getD 0 ≤ (xs.foldl (fun acc l =>
          if l.timestamp.getD 0 > acc.timestamp.getD 0 then l else acc) a).timestamp.getD 0 ∧
        ∀ l ∈ xs, l.timestamp.getD 0 ≤ (xs.foldl (fun acc l =>
          if l.timestamp.getD 0 > acc.timestamp.getD 0 then l else acc) a).timestamp.getD 0 := by
  induction xs with
  | nil => exact fun a => ⟨List.mem_cons_self _ _, le_refl _, fun l hl => absurd hl (by simp)⟩
  | cons x xs ih =>
    intro a
    simp only [List.foldl_cons]
    obtain ⟨hm, hle, hall⟩ := ih (if x.timestamp.getD 0 > a.timestamp.getD 0 then x else a)
    have hstep : a.timestamp.getD 0
        ≤ (if x.timestamp.getD 0 > a.timestamp.getD 0 then x else a).timestamp.getD 0 := by
      split
      · omega
      · exact le_refl _
    have hstepx : x.timestamp.getD 0
        ≤ (if x.timestamp.getD 0 > a.timestamp.getD 0 then x else a).timestamp.getD 0 := by
      split
      · exact le_refl _
      · omega
    refine ⟨?_, le_trans hstep hle, ?_⟩
    · rcases List.mem_cons.mp hm with h | h
      · rw [h]
        split
        · exact List.mem_cons_of_mem _ (List.mem_cons_self _ _)
        · exact List.mem_cons_self _ _
      · exact List.mem_cons_of_mem _ (List.mem_cons_of_mem _ h)
    · intro l hl
      rcases List.mem_cons.mp hl with h | h
      · rw [h]; exact le_trans hstepx hle
      · exact hall l h

theorem pickNewest_some {l : List LogEntry} {m : LogEntry} (h : pickNewest l = some m) :
    m ∈ l ∧ ∀ x ∈ l, x.timestamp.getD 0 ≤ m.timestamp.getD 0 := by
  cases l with
  | nil => cases h
  | cons x xs =>
    obtain ⟨hm, hle, hall⟩ := pickNewest_foldl xs x
    have hmm : m = xs.foldl (fun acc l =>
        if l.timestamp.getD 0 > acc.timestamp.getD 0 then l else acc) x := by
      simpa [pickNewest] using h.symm
    subst hmm
    refine ⟨hm, ?_⟩
    intro y hy
    rcases List.mem_cons.mp hy with h' | h'
    · rw [h']; exact hle
    · exact hall y h'

theorem recentMatch_some {logs : List LogEntry} {m : LogEntry}
    (h : recentMatch logs = some m) :
    m ∈ lcMeals logs ∧ ∀ x ∈ lcMeals logs, x.timestamp.getD 0 ≤ m.timestamp.getD 0 :=
  pickNewest_some h

/-- Any entry the cascade selects is either meal-guarded (rule 1, 2 or 4) or
substring-related to the result's normalized name (rule 3). -/
theorem findMatch_some {logs : List LogEntry} {r : AnalysisResult} {m : LogEntry}
    (h : findMatch logs r = some m) :
    m ∈ logs ∧ (jsStrOr m.category "meal".toList = "meal".toList ∨
      jsToLower (jsStrOr m.category []) = "meal".toList ∨ SubRel m (analyzedNameOf r)) := by
  unfold findMatch at h
  cases he : exactMatch logs (analyzedNameOf r) with
  | some m' =>
    simp only [he] at h
    cases h
    obtain ⟨hm, _, hc⟩ := exactMatch_some he
    exact ⟨hm, Or.inl hc⟩
  | none =>
    simp only [he] at h
    cases hp : posMatch logs r.id with
    | some m' =>
      simp only [hp] at h
      cases h
      obtain ⟨hm, hc⟩ := lcMeals_mem (posMatch_some hp)
      exact ⟨hm, Or.inr (Or.inl hc)⟩
    | none =>
      simp only [hp] at h
      cases hs : subMatch logs (analyzedNameOf r) with
      | some m' =>
        simp only [hs] at h
        cases h
        obtain ⟨hm, hrel⟩ := subMatch_some hs
        exact ⟨hm, Or.inr (Or.inr hrel)⟩
      | none =>
        simp only [hs] at h
        obtain ⟨hm, hc⟩ := lcMeals_mem (recentMatch_some h).1
        exact ⟨hm, Or.inr (Or.inl hc)⟩

/-! ### Claim C5 -/

/-- C5 (counterexample): with a target-day meal (`date` 19724) present, the
most-recent fallback still selects the *other-day* entry (`date` 19723)
because it maximises the raw timestamp over all stored meals — the fallback
pool is not restricted to the job's target day. -/
theorem C5_cex :
    findMatch [cexMealToday, cexMealYesterday] cexResUnmatched = some cexMealYesterday ∧
      cexMealYesterday.date = some 19723 ∧ cexMealToday.date = some 19724 ∧
      isMealDefault cexMealToday = true := by
  refine ⟨by decide, rfl, rfl, by decide⟩

/-- C5 (amended): when no higher-precedence rule matches and at least one
entry passes the lowercased meal filter, the matcher selects a meal entry
with maximal `timestamp || 0` among *all* stored meal entries, regardless of
date — so a result is never silently dropped while any meal entry exists
(with possible cross-day misattribution). -/
theorem C5_fallback_most_recent (logs : List LogEntry) (r : AnalysisResult)
    (h1 : exactMatch logs (analyzedNameOf r) = none)
    (h2 : posMatch logs r.id = none)
    (h3 : subMatch logs (analyzedNameOf r) = none)
    (h4 : lcMeals logs ≠ []) :
    ∃ m, findMatch logs r = some m ∧ m ∈ lcMeals logs ∧
      ∀ l ∈ lcMeals logs, l.timestamp.getD 0 ≤ m.timestamp.getD 0 := by
  have hfall : findMatch logs r = recentMatch logs := by
    simp only [findMatch, h1, h2, h3]
  cases hrec : recentMatch logs with
  | none =>
    exfalso
    apply h4
    unfold recentMatch pickNewest at hrec
    cases hl : lcMeals logs with
    | nil => rfl
    | cons x xs => rw [hl] at hrec; cases hrec
  | some m =>
    obtain ⟨hm, hmax⟩ := recentMatch_some hrec
    exact ⟨m, hfall.trans hrec, hm, hmax⟩

/-- Witness for C5 on the two-meal scenario. -/
theorem C5_fallback_most_recent_w :
    ∃ m, findMatch [cexMealToday, cexMealYesterday] cexResUnmatched = some m ∧
      m ∈ lcMeals [cexMealToday, cexMealYesterday] ∧
      ∀ l ∈ lcMeals [cexMealToday, cexMealYesterday],
        l.timestamp.getD 0 ≤ m.timestamp.getD 0 :=
  C5_fallback_most_recent [cexMealToday, cexMealYesterday] cexResUnmatched
    (by decide) (by decide) (by decide) (by decide)

/-! ### Claim C6 -/

/-- C6 (counterexample): `getDailyLogs` hands the matcher the stored meals
newest-first, so for two submitted meals (timestamps 100 then 200) the list
is `[second, first]` and result `{id: "item-1", name: "Xyz"}` updates the
*first*-submitted entry (timestamp 100), not the second as claimed. -/
theorem C6_cex :
    findMatch [cexSecondMeal, cexFirstMeal] cexResItem1 = some cexFirstMeal ∧
      cexFirstMeal.timestamp = some 100 ∧ cexSecondMeal.timestamp = some 200 ∧
      (reconcile [cexSecondMeal, cexFirstMeal] [cexResItem1]).map
          (fun e => (e.id, e.calories))
        = [("B".toList, none), ("A".toList, some (.num 0))] := by
  refine ⟨by decide, rfl, rfl, by decide⟩

/-- C6 (amended): for a result whose id matches `item-<n>` and which has no
exact normalized match, the matcher selects the `n`-th element of the meal
entries *in stored-log order* — and `getDailyLogs` orders by timestamp
descending (newest first), not by submission order, so with two submitted
meals `item-1` hits the first-submitted (older) one. -/
theorem C6_positional (logs : List LogEntry) (r : AnalysisResult) (id : List Char)
    (m : LogEntry) (hid : r.id = some id) (hne : ¬ id = [])
    (hpat : itemPatTest id = true)
    (hex : exactMatch logs (analyzedNameOf r) = none)
    (hget : (lcMeals logs).get? (posIdxOf id) = some m) :
    findMatch logs r = some m := by
  have hpos : posMatch logs r.id = some m := by
    rw [hid]
    simp only [posMatch]
    rw [if_neg hne, if_pos hpat]
    exact hget
  simp only [findMatch, hex, hpos]

/-- Witness for C6 on the two-meal scenario, timestamp-descending order. -/
theorem C6_positional_w :
    findMatch [cexSecondMeal, cexFirstMeal] cexResItem1 = some cexFirstMeal :=
  C6_positional [cexSecondMeal, cexFirstMeal] cexResItem1 "item-1".toList cexFirstMeal
    rfl (by decide) (by decide) (by decide) (by decide)

/-! ### Claim C1 -/

/-- An entry never hit by any result of the pass is left untouched. -/
theorem applyAll_skip (logs : List LogEntry) (rs : List AnalysisResult) (e : LogEntry)
    (hsel : ∀ r ∈ rs, ∀ m, findMatch logs r = some m → m.id ≠ e.id) :
    applyAll logs rs e = e := by
  induction rs with
  | nil => rfl
  | cons r rs ih =>
    have hstep : stepOneEntry logs r e = e := by
      unfold stepOneEntry
      split
      · rfl
      · rename_i m hm
        by_cases hid : m.id = []
        · rw [if_pos hid]
        · rw [if_neg hid, if_neg (Ne.symm (hsel r (List.mem_cons_self _ _) m hm))]
    rw [show applyAll logs (r :: rs) e = applyAll logs rs (stepOneEntry logs r e) from rfl,
      hstep]
    exact ih fun r' hr' => hsel r' (List.mem_cons_of_mem _ hr')

/-- C1 (amended): reconciliation only ever writes `calories`, `macros` and
`provenance` — all other fields of every entry survive every pass unchanged —
but its per-rule category guards differ (rule 1 takes `category || "meal"`,
rules 2 and 4 lowercase `category || ""`) and rule 3 has *no* category
filter, and `manualOverride` is never consulted.  An entry is guaranteed
untouched only when its category fails both guards *and* its normalized item
text is substring-unrelated to every result name. -/
theorem C1_frame_conditions :
    (∀ (logs : List LogEntry) (rs : List AnalysisResult) (i : ℕ),
      ((reconcile logs rs).get? i).map
          (fun e => (e.id, e.item, e.item_name, e.category, e.timestamp, e.date,
            e.manualOverride))
        = (logs.get? i).map
          (fun e => (e.id, e.item, e.item_name, e.category, e.timestamp, e.date,
            e.manualOverride))) ∧
    (∀ (logs : List LogEntry) (rs : List AnalysisResult) (i : ℕ) (e : LogEntry)
       (c : List Char),
      (logs.map LogEntry.id).Nodup → logs.get? i = some e →
      e.category = some c → c ≠ [] → c ≠ "meal".toList → jsToLower c ≠ "meal".toList →
      (∀ r ∈ rs, ¬ SubRel e (analyzedNameOf r)) →
      (reconcile logs rs).get? i = some e) := by
  constructor
  · intro logs rs i
    rw [reconcile_get?]
    cases h : logs.get? i with
    | none => rfl
    | some e =>
      obtain ⟨f1, f2, f3, f4, f5, f6, f7⟩ := applyAll_frame logs rs e
      simp [f1, f2, f3, f4, f5, f6, f7]
  · intro logs rs i e c hnd hi hcat hc1 hc2 hc3 hsub
    rw [reconcile_get?, hi, Option.map_some']
    congr 1
    apply applyAll_skip
    intro r hr m hm hideq
    have hme : m = e :=
      List.inj_on_of_nodup_map hnd (findMatch_some hm).1 (List.get?_mem hi) hideq
    rcases (findMatch_some hm).2 with h | h | h
    · rw [hme, hcat] at h
      simp only [jsStrOr, if_neg hc1] at h
      exact hc2 h
    · rw [hme, hcat] at h
      simp only [jsStrOr, if_neg hc1] at h
      exact hc3 h
    · rw [hme] at h
      exact hsub r hr h

/-- C1 (counterexample): one pass modifies both a `water`-category entry
(selected by the substring rule, which has no category filter) and a meal
entry with `manualOverride = true` (the matcher never reads that flag):
both receive `calories`, overwriting the claim's frame. -/
theorem C1_cex :
    cexWater.category = some "water".toList ∧ cexWater.calories = none ∧
      cexManual.manualOverride = true ∧ cexManual.calories = none ∧
      (reconcile [cexWater, cexManual] [cexResWater, cexResToast]).map
          (fun e => (e.id, e.calories))
        = [("W".toList, some (.num 0)), ("M".toList, some (.num 0))] := by
  refine ⟨rfl, rfl, rfl, rfl, by decide⟩

/-- Witness for C1: a non-meal entry unrelated to every result name is
untouched. -/
theorem C1_frame_conditions_w :
    (reconcile [cexWater] [cexResUnmatched]).get? 0 = some cexWater :=
  C1_frame_conditions.2 [cexWater] [cexResUnmatched] 0 cexWater "water".toList
    (by decide) rfl rfl (by decide) (by decide) (by decide)
    (by intro r hr; rw [List.mem_singleton] at hr; subst hr; decide)

/-! ### Claim C3 -/

/-- A single-result step can only rewrite an entry when the match carries a
truthy id equal to the entry's. -/
theorem stepOneEntry_changed {logs : List LogEntry} {r : AnalysisResult} {e : LogEntry}
    (h : stepOneEntry logs r e ≠ e) :
    ∃ m, findMatch logs r = some m ∧ m.id ≠ [] ∧ e.id = m.id := by
  unfold stepOneEntry at h
  split at h
  · exact absurd rfl h
  · rename_i m hm
    by_cases hid : m.id = []
    · rw [if_pos hid] at h
      exact absurd rfl h
    · by_cases heid : e.id = m.id
      · exact ⟨m, hm, hid, heid⟩
      · rw [if_neg hid, if_neg heid] at h
        exact absurd rfl h

/-- C3 (amended): each result of a pass updates at most one stored entry
(unique ids), but a selected entry is *not* removed from the candidate pool:
a later result matching the same entry applies its update on top of the
earlier one (last-write-wins), instead of being dropped. -/
theorem C3_consumption :
    (∀ (logs : List LogEntry) (r : AnalysisResult) (store : List LogEntry) (i j : ℕ)
       (ei ej : LogEntry),
      (store.map LogEntry.id).Nodup → store.get? i = some ei → store.get? j = some ej →
      (stepOne logs r store).get? i ≠ some ei → (stepOne logs r store).get? j ≠ some ej →
      i = j) ∧
    (∀ (logs : List LogEntry) (r1 r2 : AnalysisResult) (m e : LogEntry) (i : ℕ),
      findMatch logs r1 = some m → findMatch logs r2 = some m → m.id ≠ [] →
      logs.get? i = some e → e.id = m.id →
      (reconcile logs [r1, r2]).get? i
        = some (applyResult (applyResult e r1) r2)) := by
  constructor
  · intro logs r store i j ei ej hnd hi hj hchi hchj
    rw [stepOne_eq_map, List.get?_map, hi, Option.map_some'] at hchi
    rw [stepOne_eq_map, List.get?_map, hj, Option.map_some'] at hchj
    have hei : stepOneEntry logs r ei ≠ ei := fun hh => hchi (by rw [hh])
    have hej : stepOneEntry logs r ej ≠ ej := fun hh => hchj (by rw [hh])
    obtain ⟨m1, hm1, _, hid1⟩ := stepOneEntry_changed hei
    obtain ⟨m2, hm2, _, hid2⟩ := stepOneEntry_changed hej
    have hmm : m1 = m2 := by rw [hm1] at hm2; exact Option.some.inj hm2
    have hids : ei.id = ej.id := by rw [hid1, hmm, ← hid2]
    have hilen : i < store.length := (List.get?_eq_some.mp hi).1
    have hmi : (store.map LogEntry.id).get? i = some ei.id := by
      rw [List.get?_map, hi, Option.map_some']
    have hmj : (store.map LogEntry.id).get? j = some ej.id := by
      rw [List.get?_map, hj, Option.map_some']
    refine List.get?_inj ?_ hnd ?_
    · rw [List.length_map]
      exact hilen
    · rw [hmi, hmj, hids]
  · intro logs r1 r2 m e i h1 h2 hmid hi heid
    rw [reconcile_get?, hi, Option.map_some']
    have s1 : stepOneEntry logs r1 e = applyResult e r1 := by
      unfold stepOneEntry
      simp only [h1]
      rw [if_neg hmid, if_pos heid]
    have s2 : stepOneEntry logs r2 (applyResult e r1) = applyResult (applyResult e r1) r2 := by
      unfold stepOneEntry
      simp only [h2]
      rw [if_neg hmid, if_pos (show (applyResult e r1).id = m.id from heid)]
    rw [show applyAll logs [r1, r2] e = stepOneEntry logs r2 (stepOneEntry logs r1 e)
        from rfl, s1, s2]

/-- C3 (counterexample): two results with the same name both select the same
(sole) meal entry; the second is not dropped — it overwrites, leaving
calories 200 where the claimed one-result-per-entry pool would leave 100. -/
theorem C3_cex :
    findMatch [cexToastEntry] cexResToast100 = some cexToastEntry ∧
      findMatch [cexToastEntry] cexResToast200 = some cexToastEntry ∧
      (reconcile [cexToastEntry] [cexResToast100, cexResToast200]).map
          (fun e => e.calories)
        = [some (.num 200)] := by
  refine ⟨by decide, by decide, by decide⟩

/-- Witness for C3: the double-update composition at the concrete toast
scenario. -/
theorem C3_consumption_w :
    (reconcile [cexToastEntry] [cexResToast100, cexResToast200]).get? 0
      = some (applyResult (applyResult cexToastEntry cexResToast100) cexResToast200) :=
  C3_consumption.2 [cexToastEntry] cexResToast100 cexResToast200 cexToastEntry
    cexToastEntry 0 (by decide) (by decide) (by decide) rfl rfl

/-! ### Streak lemmas (claim C8) -/

theorem curAux_mem (s : List ℤ) :
    ∀ (fuel : ℕ) (t : ℤ) (j : ℕ), j < currentStreakAux s fuel t → (t - j) ∈ s := by
  intro fuel
  induction fuel with
  | zero => intro t j hj; simp [currentStreakAux] at hj
  | succ f ih =>
    intro t j hj
    by_cases ht : t ∈ s
    · rw [show currentStreakAux s (f + 1) t = currentStreakAux s f (t - 1) + 1 from by
        simp [currentStreakAux, ht]] at hj
      cases j with
      | zero => simpa using ht
      | succ j' =>
        have := ih (t - 1) j' (by omega)
        have harith : t - ((j' + 1 : ℕ) : ℤ) = t - 1 - (j' : ℤ) := by push_cast; ring
        rw [harith]
        exact this
    · rw [show currentStreakAux s (f + 1) t = 0 from by simp [currentStreakAux, ht]] at hj
      omega

theorem curAux_stop (s : List ℤ) :
    ∀ (fuel : ℕ) (t : ℤ), currentStreakAux s fuel t < fuel →
      (t - (currentStreakAux s fuel t : ℤ)) ∉ s := by
  intro fuel
  induction fuel with
  | zero => intro t h; omega
  | succ f ih =>
    intro t h
    by_cases ht : t ∈ s
    · have heq : currentStreakAux s (f + 1) t = currentStreakAux s f (t - 1) + 1 := by
        simp [currentStreakAux, ht]
      rw [heq] at h ⊢
      have := ih (t - 1) (by omega)
      have harith : t - ((currentStreakAux s f (t - 1) + 1 : ℕ) : ℤ)
          = t - 1 - (currentStreakAux s f (t - 1) : ℤ) := by push_cast; ring
      rw [harith]
      exact this
    · rw [show currentStreakAux s (f + 1) t = 0 from by simp [currentStreakAux, ht]]
      simpa using ht

/-- The backward walk can take at most one step per distinct member of `s`. -/
theorem curAux_le_length (s : List ℤ) (fuel : ℕ) (t : ℤ) :
    currentStreakAux s fuel t ≤ s.length := by
  set c := currentStreakAux s fuel t with hc
  have hvisited : ((List.range c).map fun j : ℕ => t - (j : ℤ)) ⊆ s := by
    intro x hx
    obtain ⟨j, hj, rfl⟩ := List.mem_map.mp hx
    exact curAux_mem s fuel t j (List.mem_range.mp hj)
  have hnd : ((List.range c).map fun j : ℕ => t - (j : ℤ)).Nodup := by
    refine List.Nodup.map ?_ (List.nodup_range c)
    intro a b hab
    have hab' : t - (a : ℤ) = t - (b : ℤ) := hab
    omega
  have := List.Subperm.length_le (List.subperm_of_subset hnd hvisited)
  simpa using this

/-- Invariant induction for the single ascending scan: processing a strictly
ascending `rest` after state `(prev, run, best)`, where `P` is the set of
already-processed dates, `run` is the length of the maximal consecutive run
ending at `prev`, and `best` bounds every consecutive run inside `P`. -/
theorem bestAux_spec :
    ∀ (rest : List ℤ) (P : Finset ℤ) (prev : ℤ) (run best : ℕ),
      (∀ x ∈ P, x ≤ prev) → prev ∈ P → 1 ≤ run →
      (∀ j : ℕ, j < run → prev - (j : ℤ) ∈ P) →
      (∀ k : ℕ, (∀ j : ℕ, j < k → prev - (j : ℤ) ∈ P) → k ≤ run) →
      (∃ a : ℤ, ∀ j : ℕ, j < best → a + (j : ℤ) ∈ P) →
      (∀ (k : ℕ) (a : ℤ), (∀ j : ℕ, j < k → a + (j : ℤ) ∈ P) → k ≤ best) →
      run ≤ best →
      List.Chain' (· < ·) (prev :: rest) →
      (∃ a : ℤ, ∀ j : ℕ, j < bestAux prev run best rest →
        a + (j : ℤ) ∈ P ∪ rest.toFinset) ∧
      (∀ (k : ℕ) (a : ℤ), (∀ j : ℕ, j < k → a + (j : ℤ) ∈ P ∪ rest.toFinset) →
        k ≤ bestAux prev run best rest) := by
  intro rest
  induction rest with
  | nil =>
    intro P prev run best hub hprev hrun1 hwin hmax hex hcomp hrb hch
    simp only [bestAux, List.toFinset_nil, Finset.union_empty]
    exact ⟨hex, hcomp⟩
  | cons d rest ih =>
    intro P prev run best hub hprev hrun1 hwin hmax hex hcomp hrb hch
    have hpd : prev < d := (List.chain'_cons.mp hch).1
    have hch' : List.Chain' (· < ·) (d :: rest) := (List.chain'_cons.mp hch).2
    set run' := if d - prev = 1 then run + 1 else 1 with hrun'
    have hub' : ∀ x ∈ insert d P, x ≤ d := by
      intro x hx
      rcases Finset.mem_insert.mp hx with h | h
      · omega
      · exact le_trans (hub x h) (le_of_lt hpd)
    have hd' : d ∈ insert d P := Finset.mem_insert_self d P
    have hrun1' : 1 ≤ run' := by rw [hrun']; split <;> omega
    have hwin' : ∀ j : ℕ, j < run' → d - (j : ℤ) ∈ insert d P := by
      intro j hj
      rw [hrun'] at hj
      by_cases h1 : d - prev = 1
      · rw [if_pos h1] at hj
        cases j with
        | zero => simp only [Nat.cast_zero, sub_zero]; exact hd'
        | succ j' =>
          have harel : d - ((j' + 1 : ℕ) : ℤ) = prev - (j' : ℤ) := by push_cast; omega
          rw [harel]
          exact Finset.mem_insert_of_mem (hwin j' (by omega))
      · rw [if_neg h1] at hj
        have hj0 : j = 0 := by omega
        subst hj0
        simp only [Nat.cast_zero, sub_zero]
        exact hd'
    have hmax' : ∀ k : ℕ, (∀ j : ℕ, j < k → d - (j : ℤ) ∈ insert d P) → k ≤ run' := by
      intro k hk
      rcases Nat.lt_or_ge k 2 with hk2 | hk2
      · exact le_trans (by omega) hrun1'
      · have hd1 : d - (1 : ℤ) ∈ insert d P := by
          have := hk 1 (by omega)
          simpa using this
        have hd1P : d - 1 ∈ P := by
          rcases Finset.mem_insert.mp hd1 with h | h
          · exact absurd h (by omega)
          · exact h
        have hple : d - 1 ≤ prev := hub _ hd1P
        have hdp1 : d - prev = 1 := by omega
        rw [hrun', if_pos hdp1]
        have hsub : ∀ j : ℕ, j < k - 1 → prev - (j : ℤ) ∈ P := by
          intro j hj
          have hmem := hk (j + 1) (by omega)
          have harel : d - ((j + 1 : ℕ) : ℤ) = prev - (j : ℤ) := by push_cast; omega
          rw [harel] at hmem
          rcases Finset.mem_insert.mp hmem with h | h
          · exact absurd h (by omega)
          · exact h
        have := hmax (k - 1) hsub
        omega
    have hex' : ∃ a : ℤ, ∀ j : ℕ, j < max best run' → a + (j : ℤ) ∈ insert d P := by
      rcases Nat.le_total run' best with hle | hle
      · rw [max_eq_left hle]
        obtain ⟨a, ha⟩ := hex
        exact ⟨a, fun j hj => Finset.mem_insert_of_mem (ha j hj)⟩
      · rw [max_eq_right hle]
        refine ⟨d - (run' : ℤ) + 1, ?_⟩
        intro j hj
        have harel : d - (run' : ℤ) + 1 + (j : ℤ) = d - ((run' - 1 - j : ℕ) : ℤ) := by
          omega
        rw [harel]
        exact hwin' (run' - 1 - j) (by omega)
    have hcomp' : ∀ (k : ℕ) (a : ℤ),
        (∀ j : ℕ, j < k → a + (j : ℤ) ∈ insert d P) → k ≤ max best run' := by
      intro k a hka
      by_cases hall : ∀ j : ℕ, j < k → a + (j : ℤ) ∈ P
      · exact le_trans (hcomp k a hall) (le_max_left _ _)
      · push_neg at hall
        obtain ⟨j0, hj0k, hj0⟩ := hall
        have hj0d : a + (j0 : ℤ) = d := by
          rcases Finset.mem_insert.mp (hka j0 hj0k) with h | h
          · exact h
          · exact absurd h hj0
        have hj0last : j0 = k - 1 := by
          by_contra hne
          have hlt : j0 + 1 < k := by omega
          have := hub' _ (hka (j0 + 1) hlt)
          omega
        rw [hj0last] at hj0d
        have hwind : ∀ j : ℕ, j < k → d - (j : ℤ) ∈ insert d P := by
          intro j hj
          have harel : d - (j : ℤ) = a + ((k - 1 - j : ℕ) : ℤ) := by omega
          rw [harel]
          exact hka (k - 1 - j) (by omega)
        exact le_trans (hmax' k hwind) (le_max_right _ _)
    have hrb' : run' ≤ max best run' := le_max_right _ _
    have hres := ih (insert d P) d run' (max best run') hub' hd' hrun1' hwin' hmax'
      hex' hcomp' hrb' hch'
    have hU : insert d P ∪ rest.toFinset = P ∪ (d :: rest).toFinset := by
      rw [List.toFinset_cons, Finset.insert_union, Finset.union_insert]
    have hstep : bestAux prev run best (d :: rest) = bestAux d run' (max best run') rest := by
      simp only [bestAux]
    rw [hstep, ← hU]
    exact hres

/-- The single scan over a strictly ascending list computes exactly the
length of the longest run of consecutive integers among its members. -/
theorem bestOf_spec (l : List ℤ) (hch : l.Chain' (· < ·)) :
    (∃ a : ℤ, ∀ j : ℕ, j < bestOf l → a + (j : ℤ) ∈ l) ∧
    (∀ (k : ℕ) (a : ℤ), (∀ j : ℕ, j < k → a + (j : ℤ) ∈ l) → k ≤ bestOf l) := by
  cases l with
  | nil =>
    constructor
    · exact ⟨0, fun j hj => by simp [bestOf] at hj⟩
    · intro k a hka
      rcases Nat.eq_zero_or_pos k with h | h
      · simp [h, bestOf]
      · exact absurd (hka 0 h) (by simp)
  | cons p rest =>
    have hmax1 : max 0 1 = 1 := rfl
    have hres := bestAux_spec rest {p} p 1 1
      (fun x hx => le_of_eq (Finset.mem_singleton.mp hx))
      (Finset.mem_singleton_self p) (le_refl 1)
      (by
        intro j hj
        have hj0 : j = 0 := by omega
        subst hj0
        simp)
      (by
        intro k hk
        by_contra hgt
        have h2 : 2 ≤ k := by omega
        have := Finset.mem_singleton.mp (hk 1 (by omega))
        omega)
      ⟨p, by
        intro j hj
        have hj0 : j = 0 := by omega
        subst hj0
        simp⟩
      (by
        intro k a hka
        by_contra hgt
        have h2 : 2 ≤ k := by omega
        have h0 := Finset.mem_singleton.mp (hka 0 (by omega))
        have h1 := Finset.mem_singleton.mp (hka 1 (by omega))
        omega)
      (le_refl 1) hch
    have hU : ({p} : Finset ℤ) ∪ rest.toFinset = (p :: rest).toFinset := by
      rw [List.toFinset_cons, ← Finset.insert_eq]
    rw [hU] at hres
    have hbo : bestOf (p :: rest) = bestAux p 1 1 rest := by
      simp [bestOf]
    rw [hbo]
    obtain ⟨⟨a, ha⟩, hcomp⟩ := hres
    constructor
    · exact ⟨a, fun j hj => List.mem_toFinset.mp (ha j hj)⟩
    · intro k a' hka
      exact hcomp k a' fun j hj => List.mem_toFinset.mpr (hka j hj)

/-- C8: `computeStreaksFromLogs` returns `current` = the number of
consecutive calendar days ending at today whose dates are all meal dates
(`0` when today's date is absent: the walk covers exactly the days
`today, today-1, …` up to the first missing one), and `best` = the length of
the longest run of consecutive calendar days among the distinct meal dates;
in particular meal dates {2024-01-01, 2024-01-02, 2024-01-03} (epoch days
19723-19725) with today = 2024-01-05 (epoch day 19727) give
`current = 0` and `best = 3`. -/
theorem C8_streaks :
    (∀ (today : ℤ) (rows : List LogEntry),
      (∀ j : ℕ, j < (computeStreaksFromLogs today rows).1 →
        (today - (j : ℤ)) ∈ mealDates today rows) ∧
      (today - ((computeStreaksFromLogs today rows).1 : ℤ)) ∉ mealDates today rows ∧
      (∃ a : ℤ, ∀ j : ℕ, j < (computeStreaksFromLogs today rows).2 →
        a + (j : ℤ) ∈ mealDates today rows) ∧
      (∀ (k : ℕ) (a : ℤ), (∀ j : ℕ, j < k → a + (j : ℤ) ∈ mealDates today rows) →
        k ≤ (computeStreaksFromLogs today rows).2)) ∧
    computeStreaksFromLogs 19727 streakRows = (0, 3) ∧
    computeStreaksFromLogs 19725 streakRows = (3, 3) := by
  refine ⟨?_, by decide, by decide⟩
  intro today rows
  by_cases hs : mealDates today rows = []
  · have hcs : computeStreaksFromLogs today rows = (0, 0) := by
      simp [computeStreaksFromLogs, hs]
    rw [hcs, hs]
    refine ⟨by simp, by simp, ⟨0, by simp⟩, ?_⟩
    intro k a hka
    rcases Nat.eq_zero_or_pos k with h | h
    · simp [h]
    · exact absurd (hka 0 h) (by simp)
  · have hnd : (mealDates today rows).Nodup := List.nodup_dedup _
    have hcs : computeStreaksFromLogs today rows
        = (currentStreakAux (mealDates today rows) ((mealDates today rows).length + 1) today,
           bestOf ((mealDates today rows).insertionSort (· ≤ ·))) := by
      simp [computeStreaksFromLogs, hs]
    have hsorted : ((mealDates today rows).insertionSort (· ≤ ·)).Chain' (· < ·) := by
      have hso := List.sorted_insertionSort (· ≤ ·) (mealDates today rows)
      have hn : ((mealDates today rows).insertionSort (· ≤ ·)).Nodup :=
        ((List.perm_insertionSort _ _).nodup_iff).mpr hnd
      have hp : ((mealDates today rows).insertionSort (· ≤ ·)).Pairwise (· < ·) :=
        (List.Pairwise.and hso hn).imp fun {a b} hab => lt_of_le_of_ne hab.1 hab.2
      exact hp.chain'
    obtain ⟨⟨a, ha⟩, hcomp⟩ := bestOf_spec _ hsorted
    have hmemiff : ∀ x : ℤ, x ∈ (mealDates today rows).insertionSort (· ≤ ·)
        ↔ x ∈ mealDates today rows := fun x => (List.perm_insertionSort _ _).mem_iff
    rw [hcs]
    refine ⟨?_, ?_, ⟨a, ?_⟩, ?_⟩
    · exact fun j hj => curAux_mem _ _ _ j hj
    · have hlt : currentStreakAux (mealDates today rows)
          ((mealDates today rows).length + 1) today < (mealDates today rows).length + 1 :=
        Nat.lt_succ_of_le (curAux_le_length _ _ _)
      exact curAux_stop _ _ _ hlt
    · exact fun j hj => (hmemiff _).mp (ha j hj)
    · exact fun k a' hka => hcomp k a' fun j hj => (hmemiff _).mpr (hka j hj)

/-- Witness for C8's bounded parts at the concrete streak scenario. -/
theorem C8_streaks_w :
    (19727 - ((computeStreaksFromLogs 19727 streakRows).1 : ℤ)) ∉ mealDates 19727 streakRows ∧
      3 ≤ (computeStreaksFromLogs 19727 streakRows).2 :=
  ⟨(C8_streaks.1 19727 streakRows).2.1,
   (C8_streaks.1 19727 streakRows).2.2.2 3 19723 (by decide)⟩

end Caloreat
